import Mathlib

/-!
Verification development for the `bincol` schema-inference and
schema-guided re-serialization layer.

The Rust sources are shallowly embedded:
* machine integers are `Nat` (unsigned bit patterns) or `Int` (signed
  values) with explicit `% 2 ^ w` where wrap-around matters;
* `f32` / `f64` values are carried by their raw IEEE-754 bit patterns
  (a `Nat`), exactly as the trace tape does;
* the trace tape is a `List Nat` of bytes;
* fallible Rust code returns `Except` / `Option`; a Rust `panic!` /
  `assert!` / `expect` is a distinguished failure constructor, kept
  separate from the `SerError` error enum.
-/

namespace Bincol

/-! ## Little-endian byte encoding (`to_le_bytes` / `ReadTraceExt`) -/

/-- `w`-byte little-endian encoding of an unsigned bit pattern,
mirroring Rust `to_le_bytes` on the value `n % 2^(8*w)`. -/
def leBytes (w : Nat) (n : Nat) : List Nat :=
  (List.range w).map (fun i => n / 256 ^ i % 256)

/-- Little-endian decoding, mirroring Rust `from_le_bytes`. -/
def fromLeBytes (bs : List Nat) : Nat :=
  match bs with
  | [] => 0
  | b :: rest => b % 256 + 256 * fromLeBytes rest

/-- `ReadTraceExt::pop_u8`: take one byte off the head of the tape.
`none` models the Rust `expect` panic on an empty tape. -/
def popU8 (data : List Nat) : Option (Nat × List Nat) :=
  match data with
  | [] => none
  | b :: rest => some (b, rest)

/-- `ReadTraceExt::pop_slice`: split off `len` bytes; `none` models the
`split_at` panic when the tape is too short. -/
def popSlice (len : Nat) (data : List Nat) : Option (List Nat × List Nat) :=
  if len ≤ data.length then some (data.take len, data.drop len) else none

/-- `ReadTraceExt::pop_u16` (and friends): pop `w` bytes and decode
little-endian. -/
def popLe (w : Nat) (data : List Nat) : Option (Nat × List Nat) :=
  (popSlice w data).map (fun p => (fromLeBytes p.1, p.2))

/-- Two's-complement reinterpretation of a `w`-bit unsigned pattern as a
signed value (`as i16` etc. in `ReadTraceExt::pop_i16`). -/
def toSigned (w : Nat) (n : Nat) : Int :=
  if n < 2 ^ (w - 1) then (n : Int) else (n : Int) - 2 ^ w

/-- Two's-complement pattern of a signed value (`to_le_bytes` on `iN`). -/
def toUnsigned (w : Nat) (v : Int) : Nat :=
  (v % 2 ^ w).toNat

/-- Valid unicode scalar values, mirroring `char::try_from(u32)`. -/
def isValidChar (n : Nat) : Bool :=
  n < 0xD800 || (0xE000 ≤ n && n < 0x110000)

/-- `ReadTraceExt::pop_char`; the `expect` on an invalid scalar is `none`. -/
def popChar (data : List Nat) : Option (Nat × List Nat) :=
  match popLe 4 data with
  | none => none
  | some (n, rest) => if isValidChar n then some (n, rest) else none

/-! ## Error kind (`errors.rs`)

`errors.rs` is not part of the provided sources (only its users are). -/

/-- Modelled from the spec: the single error kind of `errors.rs` (absent
from the sources; referenced by `builder.rs`, `indices.rs`, `value.rs`),
following spec section 7: `TooManyNames`, `TooManyNameLists`,
`TooManySchemas`, `TooManySchemaLists`, `TooManyFields`, `TooManyValues`,
`TooManyUnionVariants`, `UnpairedMapKey`, `UnpairedMapValue`,
`Custom(message)`. -/
inductive SerError where
  | TooManyNames
  | TooManyNameLists
  | TooManySchemas
  | TooManySchemaLists
  | TooManyFields
  | TooManyValues
  | TooManyUnionVariants
  | UnpairedMapKey
  | UnpairedMapValue
  | Custom (message : String)
  deriving DecidableEq, Repr

/-! ## Anonymous union variant names (`anonymous_union.rs`) -/

/-- `const HEX: [u8; 16] = *b"0123456789abcdef"`, as characters. -/
def HEX : List Char := "0123456789abcdef".toList

/-- `UNION_ENUM_VARIANT_NAMES`: the entry at `high_nibble * 16 + low_nibble`
is the string `['_', HEX[high_nibble], HEX[low_nibble]]`; an index `i`
therefore carries `HEX[i / 16]` and `HEX[i % 16]`. -/
def UNION_ENUM_VARIANT_NAMES : List String :=
  (List.range 256).map (fun i =>
    String.mk ['_', HEX.getD (i / 16) ' ', HEX.getD (i % 16) ' '])

/-- `MAX_UNION_ENUM_VARIANTS = UNION_ENUM_VARIANT_NAMES.len()`. -/
def MAX_UNION_ENUM_VARIANTS : Nat := UNION_ENUM_VARIANT_NAMES.length

/-- `UNION_ENUM_NAME`. -/
def UNION_ENUM_NAME : String := "Union"

/-- `serialized_anonymous_variant`: looks the index up in the table and
otherwise fails with a `Custom` error built by `ErrorT::custom(format!(...))`. -/
def serialized_anonymous_variant (i_variant : Nat) : Except SerError String :=
  match UNION_ENUM_VARIANT_NAMES[i_variant]? with
  | some name => .ok name
  | none => .error (.Custom ("too many union variants " ++ toString i_variant
      ++ " >= " ++ toString MAX_UNION_ENUM_VARIANTS))

/-- The spec's description of an anonymous variant name: zero-padded
lowercase hexadecimal prefixed by an underscore (`_00` … `_ff`). -/
def specAnonymousVariantName (i : Nat) : String :=
  String.mk ['_', (i / 16 % 16).digitChar, (i % 16).digitChar]

/-! ## Typed tape reads (`ReadTraceExt`)

The writer side (`fn_serialize_as_le_bytes!` in `builder.rs`) appends
`value.to_le_bytes()` to the tape, i.e. `leBytes w v` on the value's
unsigned `w`-byte bit pattern; `serialize_char` appends
`push_u32 (u32::from(value))`.  `f32`/`f64` payloads are their raw
IEEE-754 bit patterns (`to_le_bytes` of the bits), and `pop_f32` is
`f32::from_bits(pop_u32)`, the identity on bit patterns, so floats are
modelled by their bit patterns throughout. -/

def pop_u16 (data : List Nat) : Option (Nat × List Nat) := popLe 2 data

def pop_u32 (data : List Nat) : Option (Nat × List Nat) := popLe 4 data

def pop_u64 (data : List Nat) : Option (Nat × List Nat) := popLe 8 data

def pop_u128 (data : List Nat) : Option (Nat × List Nat) := popLe 16 data

/-- `pop_i16`: `self.pop_u16() as i16`. -/
def pop_i16 (data : List Nat) : Option (Int × List Nat) :=
  (popLe 2 data).map (fun p => (toSigned 16 p.1, p.2))

def pop_i32 (data : List Nat) : Option (Int × List Nat) :=
  (popLe 4 data).map (fun p => (toSigned 32 p.1, p.2))

def pop_i64 (data : List Nat) : Option (Int × List Nat) :=
  (popLe 8 data).map (fun p => (toSigned 64 p.1, p.2))

def pop_i128 (data : List Nat) : Option (Int × List Nat) :=
  (popLe 16 data).map (fun p => (toSigned 128 p.1, p.2))

/-- `pop_f32 = f32::from_bits(self.pop_u32())`: the raw bit pattern. -/
def pop_f32 (data : List Nat) : Option (Nat × List Nat) := popLe 4 data

/-- `pop_f64 = f64::from_bits(self.pop_u64())`: the raw bit pattern. -/
def pop_f64 (data : List Nat) : Option (Nat × List Nat) := popLe 8 data

def pop_char (data : List Nat) : Option (Nat × List Nat) := popChar data

end Bincol

deriving instance DecidableEq for Except

namespace Bincol

/-! ## Schema data model (`schema.rs`, `indices.rs`)

All `u32` index newtypes (`NameIndex`, `SchemaIndex`, …) are embedded as
`Nat`. -/

/-- `TypeName(NameIndex, Option<NameIndex>)` from `indices.rs`. -/
structure TypeName where
  name : Nat
  variant : Option Nat
  deriving DecidableEq, Repr

/-- `Schema` from `schema.rs`. -/
inductive Schema where
  | bool | i8 | i16 | i32 | i64 | i128
  | u8 | u16 | u32 | u64 | u128
  | f32 | f64 | char
  | string | bytes
  | optionNone
  | optionSome (inner : Nat)
  | unit
  | unitStruct (name : Nat)
  | unitVariant (name : Nat) (variant : Nat)
  | newtypeStruct (name : Nat) (inner : Nat)
  | newtypeVariant (name : Nat) (variant : Nat) (inner : Nat)
  | sequence (item : Nat)
  | map (key : Nat) (value : Nat)
  | tuple (length : Nat) (typeList : Nat)
  | tupleStruct (name : Nat) (length : Nat) (typeList : Nat)
  | tupleVariant (name : Nat) (variant : Nat) (length : Nat) (typeList : Nat)
  | struct (name : Nat) (nameList : Nat) (skipList : Nat) (typeList : Nat)
  | structVariant (name : Nat) (variant : Nat) (nameList : Nat) (skipList : Nat)
      (typeList : Nat)
  | union (typeList : Nat)
  deriving DecidableEq, Repr

/-- `RootSchema` from `schema.rs`: the five interning pools, as
insertion-ordered lists. -/
structure RootSchema where
  schemas : List Schema
  names : List String
  name_lists : List (List Nat)
  schema_lists : List (List Nat)
  field_lists : List (List Nat)
  deriving DecidableEq, Repr

namespace RootSchema

/-- `RootSchema::schema`. -/
def schema (r : RootSchema) (index : Nat) : Option Schema := r.schemas[index]?

/-- `RootSchema::name`. -/
def name (r : RootSchema) (index : Nat) : Option String := r.names[index]?

/-- `RootSchema::name_list`. -/
def name_list (r : RootSchema) (index : Nat) : Option (List Nat) :=
  r.name_lists[index]?

/-- `RootSchema::schema_list`. -/
def schema_list (r : RootSchema) (index : Nat) : Option (List Nat) :=
  r.schema_lists[index]?

/-- `RootSchema::field_list`. -/
def field_list (r : RootSchema) (index : Nat) : Option (List Nat) :=
  r.field_lists[index]?

end RootSchema

/-! ## Trace nodes (`trace.rs`) -/

/-- `TraceNode` from `trace.rs`. -/
inductive TraceNode where
  | bool | i8 | i16 | i32 | i64 | i128
  | u8 | u16 | u32 | u64 | u128
  | f32 | f64 | char
  | string | bytes
  | none | some
  | unit
  | unitStruct (name : Nat)
  | unitVariant (name : Nat) (variant : Nat)
  | newtypeStruct (name : Nat)
  | newtypeVariant (name : Nat) (variant : Nat)
  | sequence | map
  | tuple (length : Nat)
  | tupleStruct (length : Nat) (name : Nat)
  | tupleVariant (length : Nat) (name : Nat) (variant : Nat)
  | struct (name : Nat) (nameList : Nat)
  | structVariant (name : Nat) (variant : Nat) (nameList : Nat)
  deriving DecidableEq, Repr

/-- The fixed 0-based kind-byte assignment of `TraceNodeKind` (`trace.rs`,
order of `TraceNodeKind::ALL`). -/
def TraceKind.bool : Nat := 0

def TraceKind.i8 : Nat := 1

def TraceKind.i16 : Nat := 2

def TraceKind.i32 : Nat := 3

def TraceKind.i64 : Nat := 4

def TraceKind.i128 : Nat := 5

def TraceKind.u8 : Nat := 6

def TraceKind.u16 : Nat := 7

def TraceKind.u32 : Nat := 8

def TraceKind.u64 : Nat := 9

def TraceKind.u128 : Nat := 10

def TraceKind.f32 : Nat := 11

def TraceKind.f64 : Nat := 12

def TraceKind.char : Nat := 13

def TraceKind.string : Nat := 14

def TraceKind.bytes : Nat := 15

def TraceKind.optionNone : Nat := 16

def TraceKind.optionSome : Nat := 17

def TraceKind.unit : Nat := 18

def TraceKind.unitStruct : Nat := 19

def TraceKind.unitVariant : Nat := 20

def TraceKind.newtypeStruct : Nat := 21

def TraceKind.newtypeVariant : Nat := 22

def TraceKind.map : Nat := 23

def TraceKind.sequence : Nat := 24

def TraceKind.tuple : Nat := 25

def TraceKind.tupleStruct : Nat := 26

def TraceKind.tupleVariant : Nat := 27

def TraceKind.struct : Nat := 28

def TraceKind.structVariant : Nat := 29

/-- `ReadTraceExt::pop_trace_node`: pop the kind byte and the
kind-specific `u32` payloads; `none` models the `expect` panics. -/
def pop_trace_node (data : List Nat) : Option (TraceNode × List Nat) := do
  let (b, rest) ← popU8 data
  if b = TraceKind.bool then pure (.bool, rest)
  else if b = TraceKind.i8 then pure (.i8, rest)
  else if b = TraceKind.i16 then pure (.i16, rest)
  else if b = TraceKind.i32 then pure (.i32, rest)
  else if b = TraceKind.i64 then pure (.i64, rest)
  else if b = TraceKind.i128 then pure (.i128, rest)
  else if b = TraceKind.u8 then pure (.u8, rest)
  else if b = TraceKind.u16 then pure (.u16, rest)
  else if b = TraceKind.u32 then pure (.u32, rest)
  else if b = TraceKind.u64 then pure (.u64, rest)
  else if b = TraceKind.u128 then pure (.u128, rest)
  else if b = TraceKind.f32 then pure (.f32, rest)
  else if b = TraceKind.f64 then pure (.f64, rest)
  else if b = TraceKind.char then pure (.char, rest)
  else if b = TraceKind.string then pure (.string, rest)
  else if b = TraceKind.bytes then pure (.bytes, rest)
  else if b = TraceKind.optionNone then pure (.none, rest)
  else if b = TraceKind.optionSome then pure (.some, rest)
  else if b = TraceKind.unit then pure (.unit, rest)
  else if b = TraceKind.unitStruct then do
    let (n, rest) ← popLe 4 rest
    pure (.unitStruct n, rest)
  else if b = TraceKind.unitVariant then do
    let (n, rest) ← popLe 4 rest
    let (v, rest) ← popLe 4 rest
    pure (.unitVariant n v, rest)
  else if b = TraceKind.newtypeStruct then do
    let (n, rest) ← popLe 4 rest
    pure (.newtypeStruct n, rest)
  else if b = TraceKind.newtypeVariant then do
    let (n, rest) ← popLe 4 rest
    let (v, rest) ← popLe 4 rest
    pure (.newtypeVariant n v, rest)
  else if b = TraceKind.map then pure (.map, rest)
  else if b = TraceKind.sequence then pure (.sequence, rest)
  else if b = TraceKind.tuple then do
    let (len, rest) ← popLe 4 rest
    pure (.tuple len, rest)
  else if b = TraceKind.tupleStruct then do
    let (len, rest) ← popLe 4 rest
    let (n, rest) ← popLe 4 rest
    pure (.tupleStruct len n, rest)
  else if b = TraceKind.tupleVariant then do
    let (len, rest) ← popLe 4 rest
    let (n, rest) ← popLe 4 rest
    let (v, rest) ← popLe 4 rest
    pure (.tupleVariant len n v, rest)
  else if b = TraceKind.struct then do
    let (n, rest) ← popLe 4 rest
    let (nl, rest) ← popLe 4 rest
    pure (.struct n nl, rest)
  else if b = TraceKind.structVariant then do
    let (n, rest) ← popLe 4 rest
    let (v, rest) ← popLe 4 rest
    let (nl, rest) ← popLe 4 rest
    pure (.structVariant n v nl, rest)
  else none

/-! ## Schema drafts (`SchemaBuilder` in `builder.rs`) -/

/-- `SchemaBuilder` from `builder.rs`: the draft mirror of `Schema` with
owned sub-drafts and growable unions.  `record` covers tuples, tuple
structs, tuple variants, structs and struct variants. -/
inductive SchemaBuilder where
  | bool | i8 | i16 | i32 | i64 | i128
  | u8 | u16 | u32 | u64 | u128
  | f32 | f64 | char
  | string | bytes
  | optionNone
  | optionSome (inner : SchemaBuilder)
  | unit (name : Option TypeName)
  | newtype (name : TypeName) (inner : SchemaBuilder)
  | map (key : SchemaBuilder) (value : SchemaBuilder)
  | sequence (item : SchemaBuilder)
  | union (alts : List SchemaBuilder)
  | record (name : Option TypeName) (field_names : Option Nat)
      (field_types : List SchemaBuilder) (skippable : List Nat) (length : Nat)
  deriving Repr

/-- `SchemaBuilder::default()` is `Union(Vec::new())`. -/
def SchemaBuilder.defaultDraft : SchemaBuilder := .union []

mutual

/-- Structural equality of drafts (the derived `PartialEq`). -/
def eqDraft : SchemaBuilder → SchemaBuilder → Bool
  | .bool, .bool => true
  | .i8, .i8 => true
  | .i16, .i16 => true
  | .i32, .i32 => true
  | .i64, .i64 => true
  | .i128, .i128 => true
  | .u8, .u8 => true
  | .u16, .u16 => true
  | .u32, .u32 => true
  | .u64, .u64 => true
  | .u128, .u128 => true
  | .f32, .f32 => true
  | .f64, .f64 => true
  | .char, .char => true
  | .string, .string => true
  | .bytes, .bytes => true
  | .optionNone, .optionNone => true
  | .optionSome a, .optionSome b => eqDraft a b
  | .unit a, .unit b => a = b
  | .newtype an ai, .newtype bn bi => an = bn && eqDraft ai bi
  | .map ak av, .map bk bv => eqDraft ak bk && eqDraft av bv
  | .sequence a, .sequence b => eqDraft a b
  | .union as_, .union bs => eqDraftList as_ bs
  | .record an af at_ as_ al, .record bn bf bt bs bl =>
    an = bn && af = bf && eqDraftList at_ bt && as_ = bs && al = bl
  | _, _ => false

/-- Structural equality of draft lists. -/
def eqDraftList : List SchemaBuilder → List SchemaBuilder → Bool
  | [], [] => true
  | a :: as_, b :: bs => eqDraft a b && eqDraftList as_ bs
  | _, _ => false

end

/-! ### Sorting helpers (`sort_unstable` + `dedup` on `u32` vectors) -/

/-- Sorted insertion of one element. -/
def insertSorted (x : Nat) : List Nat → List Nat
  | [] => [x]
  | y :: ys => if x ≤ y then x :: y :: ys else y :: insertSorted x ys

/-- `sort_unstable` on a vector of `u32`s (any sorting algorithm has the
same result on `Nat`s; insertion sort is used here). -/
def sortNat (l : List Nat) : List Nat := l.foldr insertSorted []

/-- `dedup`: remove consecutive duplicates. -/
def dedupAdj : List Nat → List Nat
  | [] => []
  | [a] => [a]
  | a :: b :: rest => if a = b then dedupAdj (b :: rest) else a :: dedupAdj (b :: rest)

/-- `sort_unstable` followed by `dedup`. -/
def sortDedup (l : List Nat) : List Nat := dedupAdj (sortNat l)

/-! ### Draft unification (`unify` / `union` / `add_to_nonempty_union`)

The Rust recursion is not structural (merged union alternatives can grow
while later alternatives are folded in), so the whole family takes a
fuel argument; `Option.none` at the outer layer means the fuel ran out.
All theorems are fuel-insensitive: they constrain every fuel value for
which the computation completes. -/

mutual

/-- The flattening performed by `add_to_nonempty_union` on a `Union`
argument: nested unions contribute their alternatives in order. -/
def flattenAlts : SchemaBuilder → List SchemaBuilder
  | .union alts => flattenAltsList alts
  | d => [d]

/-- Flattening of a list of drafts, in order. -/
def flattenAltsList : List SchemaBuilder → List SchemaBuilder
  | [] => []
  | d :: ds => flattenAlts d ++ flattenAltsList ds

end

mutual

/-- `SchemaBuilder::unify`: `some (some l)` is `Ok(())` with `self`
updated to `l`; `some none` is `Err(right)` (the right draft is always
recovered unchanged); `none` is fuel exhaustion.  Every function of
this family is structurally recursive on the fuel so that the kernel
can evaluate it. -/
def unifyF (fuel : Nat) (a b : SchemaBuilder) :
    Option (Option SchemaBuilder) :=
  match fuel with
  | 0 => none
  | fuel + 1 =>
    match a, b with
    | .union lefts, right =>
      if lefts.isEmpty then some (some right)
      else (addToNonemptyUnionF fuel right lefts).map (fun l => some (.union l))
    | left, .union rights =>
      -- `std::mem::swap(left, right); left.unify(right)`: proceed as the
      -- first arm with the operands exchanged.
      if rights.isEmpty then some (some left)
      else (addToNonemptyUnionF fuel left rights).map (fun l => some (.union l))
    | .newtype leftName leftInner, .newtype rightName rightInner =>
      if leftName = rightName then
        (unionD fuel leftInner rightInner).map (fun i => some (.newtype leftName i))
      else some none
    | .optionSome left, .optionSome right =>
      (unionD fuel left right).map (fun i => some (.optionSome i))
    | .record leftName leftFieldNames leftFieldTypes leftSkippable leftLength,
      .record rightName rightFieldNames rightFieldTypes rightSkippable rightLength =>
      if leftName = rightName && leftFieldNames = rightFieldNames
          && leftLength = rightLength then
        (unifyFieldsF fuel (leftFieldTypes.zip rightFieldTypes)).map
          (fun fieldTypes =>
            some (.record leftName leftFieldNames fieldTypes
              (sortDedup (leftSkippable ++ rightSkippable)) leftLength))
      else some none
    | .map leftKeys leftValues, .map rightKeys rightValues =>
      match unionD fuel leftKeys rightKeys, unionD fuel leftValues rightValues with
      | some k, some v => some (some (.map k v))
      | _, _ => none
    | .sequence left, .sequence right =>
      (unionD fuel left right).map (fun i => some (.sequence i))
    | left, right => if eqDraft left right then some (some left) else some none

/-- Field-wise `left.union(right)` over the zipped field types of two
same-shape records. -/
def unifyFieldsF (fuel : Nat) (pairs : List (SchemaBuilder × SchemaBuilder)) :
    Option (List SchemaBuilder) :=
  match fuel with
  | 0 => none
  | fuel + 1 =>
    match pairs with
    | [] => some []
    | p :: rest =>
      match unionD fuel p.1 p.2, unifyFieldsF fuel rest with
      | some f, some fs => some (f :: fs)
      | _, _ => none

/-- `SchemaBuilder::union`: unify, or promote to a two-alternative union. -/
def unionD (fuel : Nat) (a b : SchemaBuilder) : Option SchemaBuilder :=
  match fuel with
  | 0 => none
  | fuel + 1 =>
    (unifyF fuel a b).map (fun r =>
      match r with
      | some l => l
      | none => .union [a, b])

/-- The `try_fold` in `add_to_nonempty_union`: try to unify `right` into
the first unifiable element of `lefts`; `some none` means no element
accepted it. -/
def mergeFirstF (fuel : Nat) (right : SchemaBuilder)
    (lefts : List SchemaBuilder) : Option (Option (List SchemaBuilder)) :=
  match fuel with
  | 0 => none
  | fuel + 1 =>
    match lefts with
    | [] => some none
    | l :: ls =>
      match unifyF fuel l right with
      | none => none
      | some (some l2) => some (some (l2 :: ls))
      | some none => (mergeFirstF fuel right ls).map (fun r => r.map (l :: ·))

/-- One non-union alternative entering `add_to_nonempty_union`: merged
with the first unifiable element or appended. -/
def insertRightF (fuel : Nat) (right : SchemaBuilder)
    (lefts : List SchemaBuilder) : Option (List SchemaBuilder) :=
  match fuel with
  | 0 => none
  | fuel + 1 =>
    (mergeFirstF fuel right lefts).map (fun r =>
      match r with
      | some ls => ls
      | none => lefts ++ [right])

/-- The fold of flattened alternatives into `lefts`, in order. -/
def addToGoF (fuel : Nat) (leaves : List SchemaBuilder)
    (lefts : List SchemaBuilder) : Option (List SchemaBuilder) :=
  match fuel with
  | 0 => none
  | fuel + 1 =>
    match leaves with
    | [] => some lefts
    | r :: rs =>
      match insertRightF fuel r lefts with
      | none => none
      | some lefts2 => addToGoF fuel rs lefts2

/-- `SchemaBuilder::add_to_nonempty_union`: flatten the incoming draft
and fold its alternatives into `lefts`. -/
def addToNonemptyUnionF (fuel : Nat) (self : SchemaBuilder)
    (lefts : List SchemaBuilder) : Option (List SchemaBuilder) :=
  match fuel with
  | 0 => none
  | fuel + 1 => addToGoF fuel (flattenAlts self) lefts

end

/-! ## Presence bitmask (`variant_from_presence`, `iter_field_indices`) -/

/-- `iter_field_indices`: decode the presence byte area as little-endian
`u32` field indices (`chunks_exact` drops a ragged tail). -/
def iter_field_indices : List Nat → List Nat
  | b0 :: b1 :: b2 :: b3 :: rest =>
    fromLeBytes [b0, b1, b2, b3] :: iter_field_indices rest
  | _ => []

/-- The inner `while let` of `variant_from_presence`: consume reversed
presence entries greater than `skip`; consume a match; stop otherwise.
Returns whether `skip` was present, and the remaining entries. -/
def vfpStep (skip : Nat) : List Nat → Bool × List Nat
  | [] => (false, [])
  | p :: ps =>
    if p > skip then vfpStep skip ps
    else if p = skip then (true, ps)
    else (false, p :: ps)

/-- The outer loop of `variant_from_presence` over the reversed skip
list; `variant` is a `u64`, so the shift wraps modulo `2^64`. -/
def vfpGo (pres : List Nat) : List Nat → Nat → Nat
  | [], variant => variant
  | skip :: rest, variant =>
    let shifted := variant * 2 % 2 ^ 64
    let (bit, pres2) := vfpStep skip pres
    vfpGo pres2 rest (if bit then shifted + 1 else shifted)

/-- `variant_from_presence(skip_list, presence)`. -/
def variant_from_presence (skip_list : List Nat) (presence : List Nat) : Nat :=
  vfpGo (iter_field_indices presence).reverse skip_list.reverse 0

/-! ## Emit cursor (`ser.rs`)

The downstream sink is a serde `Serializer`; the event tree it receives
is reified as `Emitted`.  The sink *interface* also offers struct visits
(`serialize_struct`), included here as `Emitted.structV` so that "the
cursor never issues a struct visit" is expressible; the cursor itself
never constructs it. -/

/-- The visitor-call tree the emit cursor drives a downstream sink with. -/
inductive Emitted where
  | bool (b : Bool)
  | i8 (v : Int) | i16 (v : Int) | i32 (v : Int) | i64 (v : Int) | i128 (v : Int)
  | u8 (v : Nat) | u16 (v : Nat) | u32 (v : Nat) | u64 (v : Nat) | u128 (v : Nat)
  | f32 (bits : Nat) | f64 (bits : Nat)
  | char (scalar : Nat)
  | str (utf8 : List Nat)
  | bytes (bs : List Nat)
  | unitV
  | tuple (elems : List Emitted)
  | seq (elems : List Emitted)
  | mapV (entries : List (Emitted × Emitted))
  | newtypeVariant (enumName : String) (variantIndex : Nat)
      (variantName : String) (inner : Emitted)
  | tupleVariant (enumName : String) (variantIndex : Nat)
      (variantName : String) (fields : List Emitted)
  | structV (name : String) (fields : List (String × Emitted))
  deriving Repr

/-- Failure of the emit cursor: a Rust `panic!` / `assert!` / `expect`
(`panicked`), a `SerError` surfaced through the sink's error type
(`error`), or exhaustion of the recursion fuel (`outOfFuel`). -/
inductive EmitFail where
  | panicked (msg : String)
  | error (e : SerError)
  | outOfFuel
  deriving Repr, DecidableEq

/-- UTF-8 validity of a byte sequence (the check inside `pop_str`). -/
def isValidUtf8 : List Nat → Bool
  | [] => true
  | b :: rest =>
    if b < 0x80 then isValidUtf8 rest
    else if 0xC2 ≤ b && b ≤ 0xDF then
      match rest with
      | c1 :: r => 0x80 ≤ c1 && c1 ≤ 0xBF && isValidUtf8 r
      | [] => false
    else if b = 0xE0 then
      match rest with
      | c1 :: c2 :: r =>
        0xA0 ≤ c1 && c1 ≤ 0xBF && 0x80 ≤ c2 && c2 ≤ 0xBF && isValidUtf8 r
      | _ => false
    else if (0xE1 ≤ b && b ≤ 0xEC) || b = 0xEE || b = 0xEF then
      match rest with
      | c1 :: c2 :: r =>
        0x80 ≤ c1 && c1 ≤ 0xBF && 0x80 ≤ c2 && c2 ≤ 0xBF && isValidUtf8 r
      | _ => false
    else if b = 0xED then
      match rest with
      | c1 :: c2 :: r =>
        0x80 ≤ c1 && c1 ≤ 0x9F && 0x80 ≤ c2 && c2 ≤ 0xBF && isValidUtf8 r
      | _ => false
    else if b = 0xF0 then
      match rest with
      | c1 :: c2 :: c3 :: r =>
        0x90 ≤ c1 && c1 ≤ 0xBF && 0x80 ≤ c2 && c2 ≤ 0xBF
          && 0x80 ≤ c3 && c3 ≤ 0xBF && isValidUtf8 r
      | _ => false
    else if 0xF1 ≤ b && b ≤ 0xF3 then
      match rest with
      | c1 :: c2 :: c3 :: r =>
        0x80 ≤ c1 && c1 ≤ 0xBF && 0x80 ≤ c2 && c2 ≤ 0xBF
          && 0x80 ≤ c3 && c3 ≤ 0xBF && isValidUtf8 r
      | _ => false
    else if b = 0xF4 then
      match rest with
      | c1 :: c2 :: c3 :: r =>
        0x80 ≤ c1 && c1 ≤ 0x8F && 0x80 ≤ c2 && c2 ≤ 0xBF
          && 0x80 ≤ c3 && c3 ≤ 0xBF && isValidUtf8 r
      | _ => false
    else false

/-- `ValueCursor::check`'s result: `Simple`, or `Discriminated` with the
selected position and the resolved alternative schema. -/
inductive CheckRes where
  | simple
  | discriminated (disc : Nat) (alt : Schema)
  deriving Repr, DecidableEq

mutual

/-- `ValueCursor::check`: compatibility of the popped trace node with the
schema node; for a `Union`, find the first alternative whose recursive
check succeeds and record its position as the discriminator. -/
def checkF (fuel : Nat) (root : RootSchema) (trace : TraceNode) (s : Schema) :
    Except EmitFail (Option CheckRes) :=
  match fuel with
  | 0 => .error .outOfFuel
  | fuel + 1 =>
    match trace, s with
    | .bool, .bool
    | .i8, .i8 | .i16, .i16 | .i32, .i32 | .i64, .i64 | .i128, .i128
    | .u8, .u8 | .u16, .u16 | .u32, .u32 | .u64, .u64 | .u128, .u128
    | .f32, .f32 | .f64, .f64 | .char, .char
    | .string, .string | .bytes, .bytes
    | .none, .optionNone | .some, .optionSome _
    | .unit, .unit
    | .map, .map _ _ | .sequence, .sequence _ => .ok (some .simple)
    | .unitStruct traceName, .unitStruct schemaName
    | .newtypeStruct traceName, .newtypeStruct schemaName _ =>
      .ok (if traceName = schemaName then some .simple else none)
    | .unitVariant traceName traceVariant, .unitVariant schemaName schemaVariant
    | .newtypeVariant traceName traceVariant,
        .newtypeVariant schemaName schemaVariant _ =>
      .ok (if traceName = schemaName ∧ traceVariant = schemaVariant
        then some .simple else none)
    | .tuple traceLength, .tuple schemaLength _ =>
      .ok (if traceLength = schemaLength then some .simple else none)
    | .tupleStruct traceLength traceName, .tupleStruct schemaName schemaLength _ =>
      .ok (if traceLength = schemaLength ∧ traceName = schemaName
        then some .simple else none)
    | .tupleVariant traceLength traceName traceVariant,
        .tupleVariant schemaName schemaVariant schemaLength _ =>
      .ok (if traceLength = schemaLength ∧ traceName = schemaName
          ∧ traceVariant = schemaVariant then some .simple else none)
    | .struct traceName traceNameList, .struct schemaName schemaNameList _ _ =>
      .ok (if traceName = schemaName ∧ traceNameList = schemaNameList
        then some .simple else none)
    | .structVariant traceName traceVariant traceNameList,
        .structVariant schemaName schemaVariant schemaNameList _ _ =>
      .ok (if traceName = schemaName ∧ traceVariant = schemaVariant
          ∧ traceNameList = schemaNameList then some .simple else none)
    | t, .union schemaList =>
      match root.schema_list schemaList with
      | none => .error (.panicked "no such schema list")
      | some alts => findPositionF fuel root t alts 0
    | _, _ => .ok none
  termination_by structural fuel

/-- The `find_position` over a union's alternatives: position of the
first alternative whose check succeeds (the `u32::try_from` on the
position is the `expect("too many types in union")`). -/
def findPositionF (fuel : Nat) (root : RootSchema) (trace : TraceNode)
    (alts : List Nat) (pos : Nat) : Except EmitFail (Option CheckRes) :=
  match fuel with
  | 0 => .error .outOfFuel
  | fuel + 1 =>
    match alts with
    | [] => .ok none
    | altIdx :: rest =>
      match root.schema altIdx with
      | none => .error (.panicked "no such schema")
      | some altSchema =>
        match checkF fuel root trace altSchema with
        | .error e => .error e
        | .ok (some _) =>
          if pos < 2 ^ 32 then .ok (some (.discriminated pos altSchema))
          else .error (.panicked "too many types in union")
        | .ok none => findPositionF fuel root trace rest (pos + 1)
  termination_by structural fuel

/-- `ValueCursor::pop_child` followed by `Serialize for ValueCursor`:
pop a trace node off the tape, check it against the schema at `index`,
and finish; the `expect("schema-trace mismatch")` is a panic. -/
def emitNodeF (fuel : Nat) (root : RootSchema) (index : Nat) (tape : List Nat) :
    Except EmitFail (Emitted × List Nat) :=
  match fuel with
  | 0 => .error .outOfFuel
  | fuel + 1 =>
    match root.schema index with
    | none => .error (.panicked "no such schema")
    | some s =>
      match pop_trace_node tape with
      | none => .error (.panicked "invalid trace")
      | some (trace, tape2) => emitCheckedF fuel root trace s tape2
  termination_by structural fuel

/-- Check then finish: the common body of `Serialize for ValueCursor`. -/
def emitCheckedF (fuel : Nat) (root : RootSchema) (trace : TraceNode)
    (s : Schema) (tape : List Nat) : Except EmitFail (Emitted × List Nat) :=
  match fuel with
  | 0 => .error .outOfFuel
  | fuel + 1 =>
    match checkF fuel root trace s with
    | .error e => .error e
    | .ok none => .error (.panicked "schema-trace mismatch")
    | .ok (some .simple) => finishSerializeF fuel root trace s tape
    | .ok (some (.discriminated disc alt)) =>
      -- `serialize_newtype_variant(UNION_ENUM_NAME, discriminant,
      --   serialized_anonymous_variant(discriminant)?, &child)`
      match serialized_anonymous_variant disc with
      | .error e => .error (.error e)
      | .ok variantName =>
        match emitCheckedF fuel root trace alt tape with
        | .error e => .error e
        | .ok (inner, tape2) =>
          .ok (.newtypeVariant UNION_ENUM_NAME disc variantName inner, tape2)
  termination_by structural fuel

/-- `ValueCursor::finish_serialize` with a `Simple` check result. -/
def finishSerializeF (fuel : Nat) (root : RootSchema) (_trace : TraceNode)
    (s : Schema) (tape : List Nat) : Except EmitFail (Emitted × List Nat) :=
  match fuel with
  | 0 => .error .outOfFuel
  | fuel + 1 =>
    match s with
    | .bool =>
      match popU8 tape with
      | none => .error (.panicked "expected byte")
      | some (b, tape2) => .ok (.bool (b ≠ 0), tape2)
    | .i8 =>
      match popU8 tape with
      | none => .error (.panicked "expected byte")
      | some (b, tape2) => .ok (.i8 (toSigned 8 b), tape2)
    | .i16 =>
      match popLe 2 tape with
      | none => .error (.panicked "expected bytes")
      | some (n, tape2) => .ok (.i16 (toSigned 16 n), tape2)
    | .i32 =>
      match popLe 4 tape with
      | none => .error (.panicked "expected bytes")
      | some (n, tape2) => .ok (.i32 (toSigned 32 n), tape2)
    | .i64 =>
      match popLe 8 tape with
      | none => .error (.panicked "expected bytes")
      | some (n, tape2) => .ok (.i64 (toSigned 64 n), tape2)
    | .i128 =>
      match popLe 16 tape with
      | none => .error (.panicked "expected bytes")
      | some (n, tape2) => .ok (.i128 (toSigned 128 n), tape2)
    | .u8 =>
      match popU8 tape with
      | none => .error (.panicked "expected byte")
      | some (b, tape2) => .ok (.u8 b, tape2)
    | .u16 =>
      match popLe 2 tape with
      | none => .error (.panicked "expected bytes")
      | some (n, tape2) => .ok (.u16 n, tape2)
    | .u32 =>
      match popLe 4 tape with
      | none => .error (.panicked "expected bytes")
      | some (n, tape2) => .ok (.u32 n, tape2)
    | .u64 =>
      match popLe 8 tape with
      | none => .error (.panicked "expected bytes")
      | some (n, tape2) => .ok (.u64 n, tape2)
    | .u128 =>
      match popLe 16 tape with
      | none => .error (.panicked "expected bytes")
      | some (n, tape2) => .ok (.u128 n, tape2)
    | .f32 =>
      match popLe 4 tape with
      | none => .error (.panicked "expected bytes")
      | some (bits, tape2) => .ok (.f32 bits, tape2)
    | .f64 =>
      match popLe 8 tape with
      | none => .error (.panicked "expected bytes")
      | some (bits, tape2) => .ok (.f64 bits, tape2)
    | .char =>
      match popChar tape with
      | none => .error (.panicked "expected char")
      | some (c, tape2) => .ok (.char c, tape2)
    | .string =>
      match popLe 4 tape with
      | none => .error (.panicked "expected bytes")
      | some (len, tape2) =>
        match popSlice len tape2 with
        | none => .error (.panicked "expected bytes")
        | some (bs, tape3) =>
          if isValidUtf8 bs then .ok (.str bs, tape3)
          else .error (.panicked "invalid utf-8 in traced string")
    | .bytes =>
      match popLe 4 tape with
      | none => .error (.panicked "expected bytes")
      | some (len, tape2) =>
        match popSlice len tape2 with
        | none => .error (.panicked "expected bytes")
        | some (bs, tape3) => .ok (.bytes bs, tape3)
    | .unit | .unitStruct _ | .unitVariant _ _ | .optionNone => .ok (.unitV, tape)
    | .optionSome inner | .newtypeStruct _ inner | .newtypeVariant _ _ inner =>
      emitNodeF fuel root inner tape
    | .map key value =>
      match popLe 4 tape with
      | none => .error (.panicked "expected bytes")
      | some (len, tape2) =>
        match emitMapEntriesF fuel root len key value tape2 with
        | .error e => .error e
        | .ok (entries, tape3) => .ok (.mapV entries, tape3)
    | .sequence item =>
      match popLe 4 tape with
      | none => .error (.panicked "expected bytes")
      | some (len, tape2) =>
        match emitRepeatF fuel root len item tape2 with
        | .error e => .error e
        | .ok (elems, tape3) => .ok (.seq elems, tape3)
    | .tuple length typeList
    | .tupleStruct _ length typeList
    | .tupleVariant _ _ length typeList =>
      -- `ValueCursor::serialize_tuple`
      match root.schema_list typeList with
      | none => .error (.panicked "no such schema list")
      | some schemaList =>
        if schemaList.length = length then
          match emitListF fuel root schemaList tape with
          | .error e => .error e
          | .ok (elems, tape2) => .ok (.tuple elems, tape2)
        else .error (.panicked "assertion failed: schema_list.len() == schema_length")
    | .struct _ nameList skipList typeList
    | .structVariant _ _ nameList skipList typeList =>
      -- `ValueCursor::serialize_struct`
      match root.field_list skipList with
      | none => .error (.panicked "no such field list")
      | some skips =>
        match root.schema_list typeList with
        | none => .error (.panicked "no such schema list")
        | some schemaList =>
          match root.name_list nameList with
          | none => .error (.panicked "no such name list")
          | some names =>
            match popLe 4 tape with
            | none => .error (.panicked "expected bytes")
            | some (length, tape2) =>
              match popSlice (length * 4) tape2 with
              | none => .error (.panicked "expected bytes")
              | some (presence, tape3) =>
                if names.length = schemaList.length then
                  if skips.isEmpty then
                    match emitListF fuel root schemaList tape3 with
                    | .error e => .error e
                    | .ok (elems, tape4) => .ok (.tuple elems, tape4)
                  else
                    skippableStructSerializeF fuel root presence
                      (variant_from_presence skips presence) skips schemaList tape3
                else .error (.panicked "assertion failed: name_list.len() == schema_list.len()")
    | .union _ => .error (.panicked "union finish called with simple check result")
  termination_by structural fuel

/-- Emit each schema of a tuple's schema list, in order. -/
def emitListF (fuel : Nat) (root : RootSchema) (indices : List Nat)
    (tape : List Nat) : Except EmitFail (List Emitted × List Nat) :=
  match fuel with
  | 0 => .error .outOfFuel
  | fuel + 1 =>
    match indices with
    | [] => .ok ([], tape)
    | index :: rest =>
      match emitNodeF fuel root index tape with
      | .error e => .error e
      | .ok (e, tape2) =>
        match emitListF fuel root rest tape2 with
        | .error e2 => .error e2
        | .ok (es, tape3) => .ok (e :: es, tape3)
  termination_by structural fuel

/-- Emit `len` sequence items against the item schema. -/
def emitRepeatF (fuel : Nat) (root : RootSchema) (len : Nat) (item : Nat)
    (tape : List Nat) : Except EmitFail (List Emitted × List Nat) :=
  match fuel with
  | 0 => .error .outOfFuel
  | fuel + 1 =>
    match len with
    | 0 => .ok ([], tape)
    | len + 1 =>
      match emitNodeF fuel root item tape with
      | .error e => .error e
      | .ok (e, tape2) =>
        match emitRepeatF fuel root len item tape2 with
        | .error e2 => .error e2
        | .ok (es, tape3) => .ok (e :: es, tape3)
  termination_by structural fuel

/-- Emit `len` map entries (key then value each). -/
def emitMapEntriesF (fuel : Nat) (root : RootSchema) (len : Nat)
    (key value : Nat) (tape : List Nat) :
    Except EmitFail (List (Emitted × Emitted) × List Nat) :=
  match fuel with
  | 0 => .error .outOfFuel
  | fuel + 1 =>
    match len with
    | 0 => .ok ([], tape)
    | len + 1 =>
      match emitNodeF fuel root key tape with
      | .error e => .error e
      | .ok (k, tape2) =>
        match emitNodeF fuel root value tape2 with
        | .error e => .error e
        | .ok (v, tape3) =>
          match emitMapEntriesF fuel root len key value tape3 with
          | .error e2 => .error e2
          | .ok (es, tape4) => .ok ((k, v) :: es, tape4)
  termination_by structural fuel

/-- The present-field loop of `SkippableStructSerializer::serialize`'s
tuple-variant branch: emit `schema_list[field]` for each decoded
presence entry (the slice indexing panics when out of bounds). -/
def emitPresentFieldsF (fuel : Nat) (root : RootSchema) (fields : List Nat)
    (schemaList : List Nat) (tape : List Nat) :
    Except EmitFail (List Emitted × List Nat) :=
  match fuel with
  | 0 => .error .outOfFuel
  | fuel + 1 =>
    match fields with
    | [] => .ok ([], tape)
    | field :: rest =>
      match schemaList[field]? with
      | none => .error (.panicked "index out of bounds")
      | some index =>
        match emitNodeF fuel root index tape with
        | .error e => .error e
        | .ok (e, tape2) =>
          match emitPresentFieldsF fuel root rest schemaList tape2 with
          | .error e2 => .error e2
          | .ok (es, tape3) => .ok (e :: es, tape3)
  termination_by structural fuel

/-- `SkippableStructSerializer::serialize`: assert at most 64 skippable
fields; at most 8 emit one tuple variant of the present fields; more
than 8 emit a newtype variant consuming 8 skip bits per level. -/
def skippableStructSerializeF (fuel : Nat) (root : RootSchema)
    (presence : List Nat) (variant : Nat) (skipList : List Nat)
    (schemaList : List Nat) (tape : List Nat) :
    Except EmitFail (Emitted × List Nat) :=
  match fuel with
  | 0 => .error .outOfFuel
  | fuel + 1 =>
    if skipList.length ≤ 64 then
      -- `let variant = u32::from(self.variant as u8)`
      let variantByte := variant % 256
      if skipList.length ≤ 8 then
        match serialized_anonymous_variant variantByte with
        | .error e => .error (.error e)
        | .ok variantName =>
          match emitPresentFieldsF fuel root (iter_field_indices presence)
              schemaList tape with
          | .error e => .error e
          | .ok (fields, tape2) =>
            .ok (.tupleVariant UNION_ENUM_NAME variantByte variantName fields, tape2)
      else
        match serialized_anonymous_variant variantByte with
        | .error e => .error (.error e)
        | .ok variantName =>
          match skippableStructSerializeF fuel root presence (variant / 256)
              (skipList.drop 8) schemaList tape with
          | .error e => .error e
          | .ok (inner, tape2) =>
            .ok (.newtypeVariant UNION_ENUM_NAME variantByte variantName inner, tape2)
    else .error (.panicked "assertion failed: self.skip_list.len() <= 64")

  termination_by structural fuel

end

/-! ## Builder (`RootSchemaBuilder` in `builder.rs`, `Pool` from `pool.rs`)

`pool.rs` is not under the provided sources; its `intern` contract is
fully described by the spec (section 4.1) and by the callers: find the
existing insertion ordinal or append, failing with the pool's
`TooMany*` error when the ordinal does not fit in 32 bits. -/

/-- Failure of tracing or building: a `SerError`, a Rust panic, or fuel
exhaustion of the embedding. -/
inductive TraceFail where
  | error (e : SerError)
  | panicked (msg : String)
  | outOfFuel
  deriving Repr, DecidableEq

/-- Modelled from the spec: `Pool::intern` of `pool.rs` (absent from the
sources): equal inputs return the existing insertion ordinal, new inputs
are appended, and the ordinal must fit in 32 bits or the pool's
`TooMany*` error is returned. -/
def internPool {α : Type} [DecidableEq α] (pool : List α) (v : α)
    (err : SerError) : Except TraceFail (Nat × List α) :=
  match pool.findIdx? (fun x => decide (x = v)) with
  | some i => if i < 2 ^ 32 then .ok (i, pool) else .error (.error err)
  | none =>
    if pool.length < 2 ^ 32 then .ok (pool.length, pool ++ [v])
    else .error (.error err)

/-- The mutable state of `RootSchemaBuilder`: the growing trace tape and
the five pools (`schemas`, `schema_lists`, `field_lists` are only
populated during `build`). -/
structure BState where
  data : List Nat
  names : List String
  name_lists : List (List Nat)
  schemas : List Schema
  schema_lists : List (List Nat)
  field_lists : List (List Nat)
  deriving Repr

/-- The empty `RootSchemaBuilder::default()` state. -/
def BState.empty : BState :=
  { data := [], names := [], name_lists := [], schemas := [],
    schema_lists := [], field_lists := [] }

namespace BState

/-- `push_trace` followed by writing the payload bytes: appends the kind
byte and the little-endian payload (state threaded linearly). -/
def pushKindPayload (b : Nat) (payload : List Nat) : BState → BState
  | ⟨d, n, nl, s, sl, fl⟩ => ⟨d ++ b :: payload, n, nl, s, sl, fl⟩

/-- `push_trace`: append the kind byte. -/
def pushTrace (b : Nat) (st : BState) : BState := st.pushKindPayload b []

/-- `push_u32`: append a little-endian `u32`. -/
def pushU32 (n : Nat) : BState → BState
  | ⟨d, ns, nl, s, sl, fl⟩ => ⟨d ++ leBytes 4 n, ns, nl, s, sl, fl⟩

/-- `push_u32_length`: `u32::try_from(length)` or `TooManyValues`. -/
def pushU32Length (len : Nat) (st : BState) : Except TraceFail BState :=
  if len < 2 ^ 32 then .ok (st.pushU32 len) else .error (.error .TooManyValues)

/-- `reserve_bytes`: record the current offset (`TraceIndex::try_from`,
`TooManyValues` on overflow) and extend the tape with `!0` bytes. -/
def reserveBytes (size : Nat) : BState → Except TraceFail (Nat × BState)
  | ⟨d, ns, nl, s, sl, fl⟩ =>
    if d.length < 2 ^ 32 then
      .ok (d.length, ⟨d ++ List.replicate size 255, ns, nl, s, sl, fl⟩)
    else .error (.error .TooManyValues)

/-- Overwrite the head of `d` with `bytes` (the tail of a
`copy_from_slice` splice). -/
def overwriteBytes : List Nat → List Nat → List Nat
  | [], d => d
  | _ :: _, [] => []
  | b :: bs, _ :: d => b :: overwriteBytes bs d

/-- One-pass splice: `d.take index ++ bytes ++ d.drop (index + bytes.length)`. -/
def spliceBytes (bytes : List Nat) : Nat → List Nat → List Nat
  | 0, d => overwriteBytes bytes d
  | _ + 1, [] => []
  | index + 1, x :: d => x :: spliceBytes bytes index d

/-- `fill_reserved_bytes`: overwrite `data[index..][..len]` in place (the
callers always fill a previously reserved in-range region; Rust would
panic out of range, which no caller in this embedding reaches). -/
def fillReservedBytes (index : Nat) (bytes : List Nat) : BState → BState
  | ⟨d, ns, nl, s, sl, fl⟩ => ⟨spliceBytes bytes index d, ns, nl, s, sl, fl⟩

/-- `push_length_bytes`: a `u32` byte count then the bytes. -/
def pushLengthBytes (bytes : List Nat) (st : BState) : Except TraceFail BState :=
  match st.pushU32Length bytes.length with
  | .error e => .error e
  | .ok ⟨d, ns, nl, s, sl, fl⟩ => .ok ⟨d ++ bytes, ns, nl, s, sl, fl⟩

/-- `write_field_presence`: fill the next reserved presence slot with the
field index and advance the slot cursor (`TraceIndex::try_from` checks). -/
def writeFieldPresence (index : Nat) (field : Nat) (st : BState) :
    Except TraceFail (Nat × BState) :=
  match st.fillReservedBytes index (leBytes 4 field) with
  | st2 =>
    if index + 4 < 2 ^ 32 then .ok (index + 4, st2)
    else .error (.error .TooManyValues)

/-- `names.intern` (`TooManyNames`). -/
def internName (name : String) : BState → Except TraceFail (Nat × BState)
  | ⟨d, ns, nl, s, sl, fl⟩ =>
    match internPool ns name .TooManyNames with
    | .error e => .error e
    | .ok (i, ns2) => .ok (i, ⟨d, ns2, nl, s, sl, fl⟩)

/-- `name_lists.intern_from` (`TooManyNameLists`). -/
def internNameList (l : List Nat) : BState → Except TraceFail (Nat × BState)
  | ⟨d, ns, nl, s, sl, fl⟩ =>
    match internPool nl l .TooManyNameLists with
    | .error e => .error e
    | .ok (i, nl2) => .ok (i, ⟨d, ns, nl2, s, sl, fl⟩)

/-- `schemas.intern` (`TooManySchemas`). -/
def internSchema (sc : Schema) : BState → Except TraceFail (Nat × BState)
  | ⟨d, ns, nl, s, sl, fl⟩ =>
    match internPool s sc .TooManySchemas with
    | .error e => .error e
    | .ok (i, s2) => .ok (i, ⟨d, ns, nl, s2, sl, fl⟩)

/-- `schema_lists.intern_from` (`TooManySchemaLists`). -/
def internSchemaList (l : List Nat) : BState → Except TraceFail (Nat × BState)
  | ⟨d, ns, nl, s, sl, fl⟩ =>
    match internPool sl l .TooManySchemaLists with
    | .error e => .error e
    | .ok (i, sl2) => .ok (i, ⟨d, ns, nl, s, sl2, fl⟩)

/-- `field_lists.intern_from` (`TooManyFields`, per the `FieldListIndex`
mapping of `indices.rs`). -/
def internFieldList (l : List Nat) : BState → Except TraceFail (Nat × BState)
  | ⟨d, ns, nl, s, sl, fl⟩ =>
    match internPool fl l .TooManyFields with
    | .error e => .error e
    | .ok (i, fl2) => .ok (i, ⟨d, ns, nl, s, sl, fl2⟩)

/-- `push_struct_name`: intern the type name and push its index. -/
def pushStructName (name : String) (st : BState) :
    Except TraceFail (TypeName × BState) :=
  match st.internName name with
  | .error e => .error e
  | .ok (i, st2) => .ok (⟨i, Option.none⟩, st2.pushU32 i)

/-- `push_variant_name`: intern both names and push both indices. -/
def pushVariantName (name : String) (variant : String) (st : BState) :
    Except TraceFail (TypeName × BState) :=
  match st.internName name with
  | .error e => .error e
  | .ok (n, st2) =>
    match st2.internName variant with
    | .error e => .error e
    | .ok (v, st3) => .ok (⟨n, Option.some v⟩, (st3.pushU32 n).pushU32 v)

end BState

/-! ## Input values

`SValue` reifies one traversal of a serde-serializable value: the exact
sequence of visitor calls the value's `Serialize` impl makes.  A struct
field carries `Option SValue`: `none` is a field reported via
`skip_field` (serde derive's `skip_serializing_if`), and the struct
header length is the number of *present* fields, as the derive macro
computes it. -/

inductive SValue where
  | bool (b : Bool)
  | i8 (v : Int) | i16 (v : Int) | i32 (v : Int) | i64 (v : Int) | i128 (v : Int)
  | u8 (v : Nat) | u16 (v : Nat) | u32 (v : Nat) | u64 (v : Nat) | u128 (v : Nat)
  | f32 (bits : Nat) | f64 (bits : Nat) | char (scalar : Nat)
  | str (utf8 : List Nat) | bytes (bs : List Nat)
  | none | some (inner : SValue)
  | unit | unitStruct (name : String) | unitVariant (name : String) (variant : String)
  | newtypeStruct (name : String) (inner : SValue)
  | newtypeVariant (name : String) (variant : String) (inner : SValue)
  | seq (items : List SValue)
  | mapV (entries : List (SValue × SValue))
  | tuple (items : List SValue)
  | tupleStruct (name : String) (items : List SValue)
  | tupleVariant (name : String) (variant : String) (items : List SValue)
  | structV (name : String) (fields : List (String × Option SValue))
  | structVariant (name : String) (variant : String)
      (fields : List (String × Option SValue))
  deriving Repr

/-- The number of present fields: the `len` serde derive passes to
`serialize_struct` when `skip_serializing_if` fields are omitted. -/
def presentCount (fields : List (String × Option SValue)) : Nat :=
  (fields.filter (fun f => f.2.isSome)).length

mutual

/-- `<&mut RootSchemaBuilder as Serializer>::serialize_*`: write the
value's events to the tape and return the subtree's draft. -/
def traceS (fuel : Nat) (v : SValue) (st : BState) :
    Except TraceFail (SchemaBuilder × BState) :=
  match fuel with
  | 0 => .error .outOfFuel
  | fuel + 1 =>
    match v with
    | .bool b =>
      .ok (.bool, st.pushKindPayload TraceKind.bool [if b then 1 else 0])
    | .i8 v => .ok (.i8, st.pushKindPayload TraceKind.i8 [toUnsigned 8 v])
    | .u8 v => .ok (.u8, st.pushKindPayload TraceKind.u8 [v % 256])
    | .i16 v =>
      .ok (.i16, st.pushKindPayload TraceKind.i16 (leBytes 2 (toUnsigned 16 v)))
    | .i32 v =>
      .ok (.i32, st.pushKindPayload TraceKind.i32 (leBytes 4 (toUnsigned 32 v)))
    | .i64 v =>
      .ok (.i64, st.pushKindPayload TraceKind.i64 (leBytes 8 (toUnsigned 64 v)))
    | .i128 v =>
      .ok (.i128, st.pushKindPayload TraceKind.i128 (leBytes 16 (toUnsigned 128 v)))
    | .u16 v => .ok (.u16, st.pushKindPayload TraceKind.u16 (leBytes 2 v))
    | .u32 v => .ok (.u32, st.pushKindPayload TraceKind.u32 (leBytes 4 v))
    | .u64 v => .ok (.u64, st.pushKindPayload TraceKind.u64 (leBytes 8 v))
    | .u128 v => .ok (.u128, st.pushKindPayload TraceKind.u128 (leBytes 16 v))
    | .f32 bits => .ok (.f32, st.pushKindPayload TraceKind.f32 (leBytes 4 bits))
    | .f64 bits => .ok (.f64, st.pushKindPayload TraceKind.f64 (leBytes 8 bits))
    | .char c => .ok (.char, st.pushKindPayload TraceKind.char (leBytes 4 c))
    | .str utf8 => do
      let st ← (st.pushTrace TraceKind.string).pushLengthBytes utf8
      .ok (.string, st)
    | .bytes bs => do
      let st ← (st.pushTrace TraceKind.bytes).pushLengthBytes bs
      .ok (.bytes, st)
    | .none => .ok (.optionNone, st.pushTrace TraceKind.optionNone)
    | .some inner => do
      let (draft, st) ← traceS fuel inner (st.pushTrace TraceKind.optionSome)
      .ok (.optionSome draft, st)
    | .unit => .ok (.unit Option.none, st.pushTrace TraceKind.unit)
    | .unitStruct name => do
      let (tn, st) ← (st.pushTrace TraceKind.unitStruct).pushStructName name
      .ok (.unit (Option.some tn), st)
    | .unitVariant name variant => do
      let (tn, st) ← (st.pushTrace TraceKind.unitVariant).pushVariantName name variant
      .ok (.unit (Option.some tn), st)
    | .newtypeStruct name inner => do
      let (tn, st) ← (st.pushTrace TraceKind.newtypeStruct).pushStructName name
      let (draft, st) ← traceS fuel inner st
      .ok (.newtype tn draft, st)
    | .newtypeVariant name variant inner => do
      let (tn, st) ← (st.pushTrace TraceKind.newtypeVariant).pushVariantName name variant
      let (draft, st) ← traceS fuel inner st
      .ok (.newtype tn draft, st)
    | .seq items => do
      let (slot, st) ← (st.pushTrace TraceKind.sequence).reserveBytes 4
      let (draft, count, st) ←
        traceSeqItems fuel items SchemaBuilder.defaultDraft 0 st
      .ok (.sequence draft, st.fillReservedBytes slot (leBytes 4 (count % 2 ^ 32)))
    | .mapV entries => do
      let (slot, st) ← (st.pushTrace TraceKind.map).reserveBytes 4
      let (keyDraft, valueDraft, count, st) ← traceMapEntries fuel entries
        SchemaBuilder.defaultDraft SchemaBuilder.defaultDraft 0 st
      .ok (.map keyDraft valueDraft,
        st.fillReservedBytes slot (leBytes 4 (count % 2 ^ 32)))
    | .tuple items => do
      let st ← (st.pushTrace TraceKind.tuple).pushU32Length items.length
      let (drafts, st) ← traceTupleItems fuel items st
      .ok (.record Option.none Option.none drafts [] items.length, st)
    | .tupleStruct name items => do
      let st ← (st.pushTrace TraceKind.tupleStruct).pushU32Length items.length
      let (tn, st) ← st.pushStructName name
      let (drafts, st) ← traceTupleItems fuel items st
      .ok (.record (Option.some tn) Option.none drafts [] items.length, st)
    | .tupleVariant name variant items => do
      let st ← (st.pushTrace TraceKind.tupleVariant).pushU32Length items.length
      let (tn, st) ← st.pushVariantName name variant
      let (drafts, st) ← traceTupleItems fuel items st
      .ok (.record (Option.some tn) Option.none drafts [] items.length, st)
    | .structV name fields => do
      let (tn, st) ← (st.pushTrace TraceKind.struct).pushStructName name
      traceStructBody fuel tn fields st
    | .structVariant name variant fields => do
      let (tn, st) ← (st.pushTrace TraceKind.structVariant).pushVariantName name variant
      traceStructBody fuel tn fields st

/-- `SerializeSeq for SequenceSchemaBuilder`: trace each element and
union its draft into the accumulated item draft. -/
def traceSeqItems (fuel : Nat) (items : List SValue) (draft : SchemaBuilder)
    (count : Nat) (st : BState) :
    Except TraceFail (SchemaBuilder × Nat × BState) :=
  match fuel with
  | 0 => .error .outOfFuel
  | fuel + 1 =>
    match items with
    | [] => .ok (draft, count, st)
    | item :: rest => do
      let (d, st) ← traceS fuel item st
      match unionD fuel draft d with
      | Option.none => .error .outOfFuel
      | Option.some draft2 => traceSeqItems fuel rest draft2 (count + 1) st

/-- `SerializeMap for MapSchemaBuilder`: trace keys and values, unioning
each into the key / value drafts; `length` advances per key. -/
def traceMapEntries (fuel : Nat) (entries : List (SValue × SValue))
    (keyDraft valueDraft : SchemaBuilder) (count : Nat) (st : BState) :
    Except TraceFail (SchemaBuilder × SchemaBuilder × Nat × BState) :=
  match fuel with
  | 0 => .error .outOfFuel
  | fuel + 1 =>
    match entries with
    | [] => .ok (keyDraft, valueDraft, count, st)
    | (k, v) :: rest => do
      let (kd, st) ← traceS fuel k st
      let (vd, st) ← traceS fuel v st
      match unionD fuel keyDraft kd, unionD fuel valueDraft vd with
      | Option.some keyDraft2, Option.some valueDraft2 =>
        traceMapEntries fuel rest keyDraft2 valueDraft2 (count + 1) st
      | _, _ => .error .outOfFuel

/-- `SerializeTuple for TupleSchemaBuilder`: collect element drafts. -/
def traceTupleItems (fuel : Nat) (items : List SValue) (st : BState) :
    Except TraceFail (List SchemaBuilder × BState) :=
  match fuel with
  | 0 => .error .outOfFuel
  | fuel + 1 =>
    match items with
    | [] => .ok ([], st)
    | item :: rest => do
      let (d, st) ← traceS fuel item st
      let (ds, st) ← traceTupleItems fuel rest st
      .ok (d :: ds, st)

/-- `StructSchemaBuilder::new` + the field loop + `end`: reserve the
name-list slot, the declared (present) count and the presence slots;
then handle `serialize_field` / `skip_field` per field and intern the
name list on close. -/
def traceStructBody (fuel : Nat) (tn : TypeName)
    (fields : List (String × Option SValue)) (st : BState) :
    Except TraceFail (SchemaBuilder × BState) :=
  match fuel with
  | 0 => .error .outOfFuel
  | fuel + 1 => do
    let (nameListSlot, st) ← st.reserveBytes 4
    let st ← st.pushU32Length (presentCount fields)
    let (presenceSlot, st) ← st.reserveBytes (4 * presentCount fields)
    let (fieldNames, fieldTypes, skipped, _, st) ←
      traceStructFields fuel fields [] [] [] presenceSlot st
    if fieldNames.length < 2 ^ 32 then do
      let (nameList, st) ← st.internNameList fieldNames
      let st := st.fillReservedBytes nameListSlot (leBytes 4 nameList)
      .ok (.record (Option.some tn) (Option.some nameList) fieldTypes skipped
        fieldNames.length, st)
    else .error (.error .TooManyValues)

/-- The field loop: `serialize_field` writes the next presence slot and
traces the value; `skip_field` records the field index in `skipped` and
pushes an empty-union draft. -/
def traceStructFields (fuel : Nat) (fields : List (String × Option SValue))
    (fieldNames : List Nat) (fieldTypes : List SchemaBuilder)
    (skipped : List Nat) (presenceSlot : Nat) (st : BState) :
    Except TraceFail (List Nat × List SchemaBuilder × List Nat × Nat × BState) :=
  match fuel with
  | 0 => .error .outOfFuel
  | fuel + 1 =>
    match fields with
    | [] => .ok (fieldNames, fieldTypes, skipped, presenceSlot, st)
    | (key, Option.some value) :: rest => do
      if fieldNames.length < 2 ^ 32 then do
        let (slot2, st) ← st.writeFieldPresence presenceSlot fieldNames.length
        let (nameIdx, st) ← st.internName key
        let (draft, st) ← traceS fuel value st
        traceStructFields fuel rest (fieldNames ++ [nameIdx])
          (fieldTypes ++ [draft]) skipped slot2 st
      else .error (.error .TooManyFields)
    | (key, Option.none) :: rest => do
      if fieldNames.length < 2 ^ 32 then do
        let (nameIdx, st) ← st.internName key
        traceStructFields fuel rest (fieldNames ++ [nameIdx])
          (fieldTypes ++ [SchemaBuilder.defaultDraft])
          (skipped ++ [fieldNames.length]) presenceSlot st
      else .error (.error .TooManyFields)

end

/-! ## Finalization (`SchemaBuilder::build`) -/

/-- The `skippable.retain` predicate in `build`'s `Record` arm: keep a
skippable index unless the field's draft is an *empty* union
(`!matches!(field_types[index], Union(variants) if variants.is_empty())`);
the Rust slice indexing panics out of range. -/
def retainSkippable (fieldTypes : List SchemaBuilder) (skippable : List Nat) :
    Except TraceFail (List Nat) :=
  match skippable with
  | [] => .ok []
  | index :: rest =>
    match fieldTypes[index]? with
    | Option.none => .error (.panicked "index out of bounds")
    | Option.some t =>
      match retainSkippable fieldTypes rest with
      | .error e => .error e
      | .ok kept =>
        match t with
        | .union [] => .ok kept
        | _ => .ok (index :: kept)

mutual

/-- `SchemaBuilder::build`: bottom-up translation of a draft into
interned `Schema` nodes. -/
def build (draft : SchemaBuilder) (st : BState) :
    Except TraceFail (Nat × BState) :=
  match draft with
  | .bool => st.internSchema .bool
  | .i8 => st.internSchema .i8
  | .i16 => st.internSchema .i16
  | .i32 => st.internSchema .i32
  | .i64 => st.internSchema .i64
  | .i128 => st.internSchema .i128
  | .u8 => st.internSchema .u8
  | .u16 => st.internSchema .u16
  | .u32 => st.internSchema .u32
  | .u64 => st.internSchema .u64
  | .u128 => st.internSchema .u128
  | .f32 => st.internSchema .f32
  | .f64 => st.internSchema .f64
  | .char => st.internSchema .char
  | .string => st.internSchema .string
  | .bytes => st.internSchema .bytes
  | .optionNone => st.internSchema .optionNone
  | .optionSome inner => do
    let (i, st) ← build inner st
    st.internSchema (.optionSome i)
  | .unit Option.none => st.internSchema .unit
  | .unit (Option.some ⟨name, Option.none⟩) => st.internSchema (.unitStruct name)
  | .unit (Option.some ⟨name, Option.some variant⟩) =>
    st.internSchema (.unitVariant name variant)
  | .newtype ⟨name, Option.none⟩ inner => do
    let (i, st) ← build inner st
    st.internSchema (.newtypeStruct name i)
  | .newtype ⟨name, Option.some variant⟩ inner => do
    let (i, st) ← build inner st
    st.internSchema (.newtypeVariant name variant i)
  | .map key value => do
    let (k, st) ← build key st
    let (v, st) ← build value st
    st.internSchema (.map k v)
  | .sequence item => do
    let (i, st) ← build item st
    st.internSchema (.sequence i)
  | .union alts => do
    let (indices, st) ← buildList alts st
    let (listIdx, st) ← st.internSchemaList (dedupAdj (sortNat indices))
    st.internSchema (.union listIdx)
  | .record name fieldNames fieldTypes skippable length => do
    let skippable ← retainSkippable fieldTypes skippable
    let (indices, st) ← buildList fieldTypes st
    let (typeList, st) ← st.internSchemaList indices
    match name, fieldNames with
    | Option.none, Option.none => st.internSchema (.tuple length typeList)
    | Option.some ⟨n, Option.none⟩, Option.none =>
      st.internSchema (.tupleStruct n length typeList)
    | Option.some ⟨n, Option.some v⟩, Option.none =>
      st.internSchema (.tupleVariant n v length typeList)
    | Option.none, Option.some _ =>
      .error (.panicked "anonymous structs don't exist in rust!")
    | Option.some ⟨n, Option.none⟩, Option.some nameList => do
      let (skipList, st) ← st.internFieldList skippable
      st.internSchema (.struct n nameList skipList typeList)
    | Option.some ⟨n, Option.some v⟩, Option.some nameList => do
      let (skipList, st) ← st.internFieldList skippable
      st.internSchema (.structVariant n v nameList skipList typeList)

/-- Build each draft of a list in order. -/
def buildList (drafts : List SchemaBuilder) (st : BState) :
    Except TraceFail (List Nat × BState) :=
  match drafts with
  | [] => .ok ([], st)
  | d :: ds => do
    let (i, st) ← build d st
    let (is, st) ← buildList ds st
    .ok (i :: is, st)

end

/-! ## `Value` and `to_value` (`value.rs`, `RootSchemaBuilder`) -/

/-- `Value`: the finished schema, the root node index and the trace tape. -/
structure Value where
  schema : RootSchema
  root_index : Nat
  data : List Nat
  deriving Repr, DecidableEq

/-- `RootSchemaBuilder::into_value` after `RootSchemaBuilder::new`:
trace the value, build the root draft, and package the pools. -/
def to_value (fuel : Nat) (v : SValue) : Except TraceFail Value := do
  let (draft, st) ← traceS fuel v BState.empty
  let (rootIdx, st) ← build draft st
  .ok { schema :=
          { schemas := st.schemas, names := st.names,
            name_lists := st.name_lists, schema_lists := st.schema_lists,
            field_lists := st.field_lists },
        root_index := rootIdx,
        data := st.data }

/-- The trace-replay part of `Serialize for Value`: run the emit cursor
over the tape from the root index (the surrounding impl additionally
serializes the `RootSchema` itself ahead of the cursor). -/
def emitValue (fuel : Nat) (v : Value) : Except EmitFail (Emitted × List Nat) :=
  emitNodeF fuel v.schema v.root_index v.data

/-- The failure of an emit run, if any (projection used to state
concrete emit outcomes without comparing `Emitted` trees). -/
def emitFailure (fuel : Nat) (v : Value) : Option EmitFail :=
  match emitValue fuel v with
  | .error e => Option.some e
  | .ok _ => Option.none

/-! ## Concrete inputs for the claims -/

/-- The input of spec scenario 2 and of the repo's `test_always_skipped`:
`vec![WithSkipped { never_skipped: 1, always_skipped: 0 },
     WithSkipped { never_skipped: 2, always_skipped: 0 }]` where
`always_skipped` is reported via `skip_field` in both occurrences. -/
def withSkippedInput : SValue := .seq [
  .structV "WithSkipped"
    [("never_skipped", Option.some (.u32 1)), ("always_skipped", Option.none)],
  .structV "WithSkipped"
    [("never_skipped", Option.some (.u32 2)), ("always_skipped", Option.none)]]

/-- A struct with 65 fields, each `u32` and each skippable: every field
is present in exactly one of the two traced values and skipped in the
other, so all 65 indices survive `build`'s `skippable.retain`. -/
def bigStructFields (present : Nat → Bool) : List (String × Option SValue) :=
  (List.range 65).map (fun i =>
    (toString i, if present i then Option.some (SValue.u32 1) else Option.none))

/-- Two values of the 65-skippable-field struct, with complementary
presence patterns. -/
def bigStructInput : SValue := .seq [
  .structV "Big" (bigStructFields (fun i => i ≤ 32)),
  .structV "Big" (bigStructFields (fun i => 32 < i))]

/-- The `RootSchema` with all pools empty. -/
def RootSchema.emptyPools : RootSchema :=
  { schemas := [], names := [], name_lists := [], schema_lists := [],
    field_lists := [] }

/-- The `Value` that tracing the empty sequence produces: a `Sequence`
node whose item is a `Union` with an empty alternative list. -/
def emptySeqValue : Value :=
  { schema := { schemas := [.union 0, .sequence 0], names := [],
                name_lists := [], schema_lists := [[]], field_lists := [] },
    root_index := 1, data := [24, 0, 0, 0, 0] }

/-! ## C3 proof development -/

/-- The pool-sortedness invariant of the amended C3: every `Union` node
in the schema pool points at a strictly sorted (sorted, deduplicated)
schema list. -/
def UnionsSorted (schemas : List Schema) (lists : List (List Nat)) : Prop :=
  ∀ li, Schema.union li ∈ schemas →
    ∃ l, lists[li]? = some l ∧ l.Chain' (· < ·)

/-- A one-node `RootSchema`: a fieldless named struct with an empty skip
list, used to witness C10. -/
def c10Root : RootSchema :=
  { schemas := [.struct 0 0 0 0], names := ["S"], name_lists := [[]],
    schema_lists := [[]], field_lists := [[]] }

/-- A `RootSchema` with a two-alternative union (`Bool` then `U32`),
used to witness C6. -/
def c6Root : RootSchema :=
  { schemas := [.bool, .u32, .union 0], names := [], name_lists := [],
    schema_lists := [[0, 1]], field_lists := [] }

/-! ## C5: presence bitmask lemmas -/

/-! ## C7: draft-union algebra -/

/-- Boolean strict-sortedness check on `u32` index lists. -/
def sortedLtB : List Nat → Bool
  | [] => true
  | [_] => true
  | a :: b :: rest => decide (a < b) && sortedLtB (b :: rest)

mutual

/-- No `Union` constructor anywhere in a draft. -/
def unionFree : SchemaBuilder → Bool
  | .optionSome a => unionFree a
  | .newtype _ a => unionFree a
  | .map k v => unionFree k && unionFree v
  | .sequence a => unionFree a
  | .union _ => false
  | .record _ _ fts _ _ => unionFreeList fts
  | _ => true

/-- No `Union` constructor anywhere in a draft list. -/
def unionFreeList : List SchemaBuilder → Bool
  | [] => true
  | a :: rest => unionFree a && unionFreeList rest

end

mutual

/-- Canonical drafts: union-free with strictly sorted skip lists. -/
def canonical : SchemaBuilder → Bool
  | .optionSome a => canonical a
  | .newtype _ a => canonical a
  | .map k v => canonical k && canonical v
  | .sequence a => canonical a
  | .union _ => false
  | .record _ _ fts sk _ => canonicalList fts && sortedLtB sk
  | _ => true

/-- Canonical draft lists. -/
def canonicalList : List SchemaBuilder → Bool
  | [] => true
  | a :: rest => canonical a && canonicalList rest

end

/-- The two structural counterexample drafts for C7 commutativity:
same-signature single-field records with non-unifiable field types. -/
def commLeft : SchemaBuilder :=
  .union [.record Option.none Option.none [.bool] [] 1]

/-- The right operand: a union holding the `u32` record twice. -/
def commRight : SchemaBuilder :=
  .union [.record Option.none Option.none [.u32] [] 1,
    .record Option.none Option.none [.u32] [] 1]

/-- The number of alternatives of a resulting `Union` draft. -/
def unionAltCount : Option SchemaBuilder → Option Nat
  | Option.some (.union alts) => some alts.length
  | _ => none

mutual

/-- Equality of drafts up to reordering of union alternatives. -/
inductive EquivDraft : SchemaBuilder → SchemaBuilder → Prop where
  | refl (a : SchemaBuilder) : EquivDraft a a
  | optionSome {a b : SchemaBuilder} : EquivDraft a b →
      EquivDraft (.optionSome a) (.optionSome b)
  | newtype (nm : TypeName) {a b : SchemaBuilder} : EquivDraft a b →
      EquivDraft (.newtype nm a) (.newtype nm b)
  | sequence {a b : SchemaBuilder} : EquivDraft a b →
      EquivDraft (.sequence a) (.sequence b)
  | map {k v k2 v2 : SchemaBuilder} : EquivDraft k k2 → EquivDraft v v2 →
      EquivDraft (.map k v) (.map k2 v2)
  | record (nm : Option TypeName) (fn : Option Nat) (sk : List Nat)
      (len : Nat) {fts fts2 : List SchemaBuilder} :
      EquivDraftList fts fts2 →
      EquivDraft (.record nm fn fts sk len) (.record nm fn fts2 sk len)
  | union {alts alts2 : List SchemaBuilder} : alts.Perm alts2 →
      EquivDraft (.union alts) (.union alts2)

/-- Pointwise equivalence of draft lists. -/
inductive EquivDraftList : List SchemaBuilder → List SchemaBuilder → Prop where
  | nil : EquivDraftList [] []
  | cons {a b : SchemaBuilder} {l m : List SchemaBuilder} : EquivDraft a b →
      EquivDraftList l m → EquivDraftList (a :: l) (b :: m)

end

/-- Outcome relation of the two unification directions: both `Err`, or
both `Ok` with results equal up to union-alternative reordering. -/
def CommRes (r r2 : Option SchemaBuilder) : Prop :=
  (r = none ∧ r2 = none)
    ∨ ∃ l l2, r = some l ∧ r2 = some l2 ∧ EquivDraft l l2

/-! ## Theorems -/

theorem leBytes_length (w n : Nat) : (leBytes w n).length = w := by
  simp [leBytes]

theorem leBytes_succ (w n : Nat) :
    leBytes (w + 1) n = n % 256 :: leBytes w (n / 256) := by
  simp only [leBytes, List.range_succ_eq_map, List.map_cons, List.map_map]
  refine congrArg₂ _ (by simp) ?_
  refine List.map_congr_left (fun i _ => ?_)
  simp only [Function.comp_apply]
  rw [pow_succ']
  rw [Nat.div_div_eq_div_mul]

theorem fromLeBytes_leBytes (w n : Nat) (h : n < 2 ^ (8 * w)) :
    fromLeBytes (leBytes w n) = n := by
  induction w generalizing n with
  | zero =>
    simp only [Nat.mul_zero, pow_zero, Nat.lt_one_iff] at h
    simp [leBytes, fromLeBytes, h]
  | succ w ih =>
    rw [leBytes_succ]
    simp only [fromLeBytes, Nat.mod_mod_of_dvd _ (dvd_refl 256)]
    rw [ih (n / 256) (by
      rw [Nat.div_lt_iff_lt_mul (by norm_num)]
      calc n < 2 ^ (8 * (w + 1)) := h
        _ = 2 ^ (8 * w) * 2 ^ 8 := by ring
        _ = 2 ^ (8 * w) * 256 := by norm_num)]
    omega

theorem popLe_leBytes (w n : Nat) (rest : List Nat) (h : n < 2 ^ (8 * w)) :
    popLe w (leBytes w n ++ rest) = some (n, rest) := by
  have hl : (leBytes w n).length = w := leBytes_length w n
  have ht : (leBytes w n ++ rest).take w = leBytes w n := by
    have := List.take_left (leBytes w n) rest
    rwa [hl] at this
  have hd : (leBytes w n ++ rest).drop w = rest := by
    have := List.drop_left (leBytes w n) rest
    rwa [hl] at this
  unfold popLe popSlice
  rw [List.length_append, hl, if_pos (Nat.le_add_right _ _), ht, hd]
  simp [fromLeBytes_leBytes w n h]

theorem toSigned_toUnsigned (w : Nat) (v : Int) (hw : 0 < w)
    (hlo : -(2 ^ (w - 1) : Int) ≤ v) (hhi : v < 2 ^ (w - 1)) :
    toSigned w (toUnsigned w v) = v := by
  have hsplit : (2:Int) ^ w = 2 ^ (w - 1) * 2 := by
    rw [← pow_succ]
    congr 1
    omega
  have hwpos : (0:Int) < 2 ^ w := by positivity
  rcases le_or_lt 0 v with hv | hv
  · have hmod : v % 2 ^ w = v := Int.emod_eq_of_lt hv (by omega)
    simp only [toUnsigned, hmod, toSigned]
    have hcast : ((v.toNat : Int)) = v := Int.toNat_of_nonneg hv
    have hlt : v.toNat < 2 ^ (w - 1) := by
      have : (v.toNat : Int) < ((2 ^ (w - 1) : Nat) : Int) := by
        rw [hcast]
        push_cast
        exact hhi
      exact_mod_cast this
    rw [if_pos hlt, hcast]
  · have hmod : v % 2 ^ w = v + 2 ^ w := by
      have h1 : (v + 2 ^ w) % 2 ^ w = v % 2 ^ w := by
        have h0 := Int.add_mul_emod_self_left v ((2:Int) ^ w) 1
        simp only [mul_one] at h0
        exact h0
      have h2 : (v + 2 ^ w) % 2 ^ w = v + 2 ^ w :=
        Int.emod_eq_of_lt (by omega) (by omega)
      omega
    simp only [toUnsigned, hmod, toSigned]
    have hnn : (0:Int) ≤ v + 2 ^ w := by omega
    have hcast : (((v + 2 ^ w).toNat : Int)) = v + 2 ^ w := Int.toNat_of_nonneg hnn
    have hge : ¬ ((v + 2 ^ w).toNat < 2 ^ (w - 1)) := by
      intro hcon
      have hc2 : ((v + 2 ^ w).toNat : Int) < ((2 ^ (w - 1) : Nat) : Int) := by
        exact_mod_cast hcon
      rw [hcast] at hc2
      push_cast at hc2
      omega
    rw [if_neg hge, hcast]
    omega

theorem toUnsigned_lt (w : Nat) (v : Int) : toUnsigned w v < 2 ^ w := by
  have hpos : (0:Int) < 2 ^ w := by positivity
  have h1 : v % 2 ^ w < 2 ^ w := Int.emod_lt_of_pos v hpos
  have h0 : (0:Int) ≤ v % 2 ^ w := Int.emod_nonneg v (by positivity)
  have : ((toUnsigned w v : Nat) : Int) < ((2 ^ w : Nat) : Int) := by
    unfold toUnsigned
    rw [Int.toNat_of_nonneg h0]
    push_cast
    exact h1
  exact_mod_cast this

theorem popSignedLe (w : Nat) (v : Int) (rest : List Nat) (hw : 0 < w)
    (hlo : -(2 ^ (8 * w - 1) : Int) ≤ v) (hhi : v < 2 ^ (8 * w - 1)) :
    (popLe w (leBytes w (toUnsigned (8 * w) v) ++ rest)).map
        (fun p => (toSigned (8 * w) p.1, p.2)) = some (v, rest) := by
  rw [popLe_leBytes w _ rest (toUnsigned_lt (8 * w) v)]
  show some (toSigned (8 * w) (toUnsigned (8 * w) v), rest) = some (v, rest)
  rw [toSigned_toUnsigned (8 * w) v (by omega) hlo hhi]

/-- Lookups past the end of the variant-name table fail with the
`Custom` error built by `ErrorT::custom`. -/
theorem serialized_anonymous_variant_of_le (i : Nat) (hi : 256 ≤ i) :
    serialized_anonymous_variant i = .error (.Custom
      ("too many union variants " ++ toString i ++ " >= "
        ++ toString MAX_UNION_ENUM_VARIANTS)) := by
  have hlen : UNION_ENUM_VARIANT_NAMES.length ≤ i := by
    simp only [UNION_ENUM_VARIANT_NAMES, List.length_map, List.length_range]
    exact hi
  unfold serialized_anonymous_variant
  rw [List.getElem?_eq_none hlen]

/-- C8: the process-wide anonymous variant-name table has exactly 256
entries; the entry at index `i` is an underscore followed by the
two-digit zero-padded lowercase hexadecimal representation of `i`
(`_00` … `_ff`); looking an index up via `serialized_anonymous_variant`
succeeds with exactly that string for every `i < 256` and fails for
every `i ≥ 256`. -/
theorem c8_anonymous_variant_table :
    UNION_ENUM_VARIANT_NAMES.length = 256
    ∧ (∀ i, i < 256 →
        serialized_anonymous_variant i = .ok (specAnonymousVariantName i))
    ∧ (∀ i, 256 ≤ i →
        serialized_anonymous_variant i = .error (.Custom
          ("too many union variants " ++ toString i ++ " >= "
            ++ toString MAX_UNION_ENUM_VARIANTS))) := by
  refine ⟨by simp [UNION_ENUM_VARIANT_NAMES], ?_, fun i hi => serialized_anonymous_variant_of_le i hi⟩
  set_option maxRecDepth 100000 in decide

/-- Witness for C8: concrete lookups at indices 42 (`_2a`) and 256. -/
theorem c8_anonymous_variant_table_witness :
    serialized_anonymous_variant 42 = .ok "_2a"
    ∧ serialized_anonymous_variant 256 = .error (.Custom
        ("too many union variants " ++ toString 256 ++ " >= "
          ++ toString MAX_UNION_ENUM_VARIANTS)) :=
  ⟨by rw [c8_anonymous_variant_table.2.1 42 (by decide)]; rfl,
   c8_anonymous_variant_table.2.2 256 (by decide)⟩

/-- C9: every multi-byte scalar leaf is written to the tape in
little-endian byte order — byte `i` of the `w`-byte payload is
`v / 256^i % 256` — and the corresponding pop operation returns exactly
the value whose bit pattern was written: `u16..u128` via `pop_u16` …
`pop_u128`, `i16..i128` via `pop_i16` … `pop_i128` on the two's
complement pattern, `f32`/`f64` via `pop_f32`/`pop_f64` as raw IEEE-754
bit patterns (the identity on every pattern, hence no NaN
canonicalization), and `char` via `pop_char` on its 32-bit scalar
value. -/
theorem c9_little_endian_scalar_roundtrip :
    (∀ w n i, i < w → (leBytes w n)[i]? = some (n / 256 ^ i % 256))
    ∧ (∀ v rest, v < 2 ^ 16 → pop_u16 (leBytes 2 v ++ rest) = some (v, rest))
    ∧ (∀ v rest, v < 2 ^ 32 → pop_u32 (leBytes 4 v ++ rest) = some (v, rest))
    ∧ (∀ v rest, v < 2 ^ 64 → pop_u64 (leBytes 8 v ++ rest) = some (v, rest))
    ∧ (∀ v rest, v < 2 ^ 128 → pop_u128 (leBytes 16 v ++ rest) = some (v, rest))
    ∧ (∀ (v : Int) rest, -(2 ^ 15 : Int) ≤ v → v < 2 ^ 15 →
        pop_i16 (leBytes 2 (toUnsigned 16 v) ++ rest) = some (v, rest))
    ∧ (∀ (v : Int) rest, -(2 ^ 31 : Int) ≤ v → v < 2 ^ 31 →
        pop_i32 (leBytes 4 (toUnsigned 32 v) ++ rest) = some (v, rest))
    ∧ (∀ (v : Int) rest, -(2 ^ 63 : Int) ≤ v → v < 2 ^ 63 →
        pop_i64 (leBytes 8 (toUnsigned 64 v) ++ rest) = some (v, rest))
    ∧ (∀ (v : Int) rest, -(2 ^ 127 : Int) ≤ v → v < 2 ^ 127 →
        pop_i128 (leBytes 16 (toUnsigned 128 v) ++ rest) = some (v, rest))
    ∧ (∀ bits rest, bits < 2 ^ 32 → pop_f32 (leBytes 4 bits ++ rest) = some (bits, rest))
    ∧ (∀ bits rest, bits < 2 ^ 64 → pop_f64 (leBytes 8 bits ++ rest) = some (bits, rest))
    ∧ (∀ c rest, isValidChar c → pop_char (leBytes 4 c ++ rest) = some (c, rest)) := by
  refine ⟨?_, ?_, ?_, ?_, ?_, ?_, ?_, ?_, ?_, ?_, ?_, ?_⟩
  · intro w n i hi
    simp [leBytes, List.getElem?_map, List.getElem?_range hi]
  · exact fun v rest h => popLe_leBytes 2 v rest (by norm_num at h ⊢; omega)
  · exact fun v rest h => popLe_leBytes 4 v rest (by norm_num at h ⊢; omega)
  · exact fun v rest h => popLe_leBytes 8 v rest (by norm_num at h ⊢; omega)
  · exact fun v rest h => popLe_leBytes 16 v rest (by norm_num at h ⊢; omega)
  · exact fun v rest hlo hhi => popSignedLe 2 v rest (by norm_num) (by norm_num at hlo ⊢; omega)
      (by norm_num at hhi ⊢; omega)
  · exact fun v rest hlo hhi => popSignedLe 4 v rest (by norm_num) (by norm_num at hlo ⊢; omega)
      (by norm_num at hhi ⊢; omega)
  · exact fun v rest hlo hhi => popSignedLe 8 v rest (by norm_num) (by norm_num at hlo ⊢; omega)
      (by norm_num at hhi ⊢; omega)
  · exact fun v rest hlo hhi => popSignedLe 16 v rest (by norm_num) (by norm_num at hlo ⊢; omega)
      (by norm_num at hhi ⊢; omega)
  · exact fun bits rest h => popLe_leBytes 4 bits rest (by norm_num at h ⊢; omega)
  · exact fun bits rest h => popLe_leBytes 8 bits rest (by norm_num at h ⊢; omega)
  · intro c rest hc
    have hlt : c < 2 ^ (8 * 4) := by
      simp only [isValidChar, Bool.or_eq_true, decide_eq_true_eq, Bool.and_eq_true] at hc
      rcases hc with h | ⟨_, h⟩ <;> omega
    unfold pop_char popChar
    rw [popLe_leBytes 4 c rest hlt]
    simp [hc]

/-- Witness for C9: concrete little-endian roundtrips, including a
quiet-NaN `f32` bit pattern. -/
theorem c9_little_endian_scalar_roundtrip_witness :
    (leBytes 4 0x11223344)[1]? = some 0x33
    ∧ pop_u32 (leBytes 4 0x11223344 ++ [7]) = some (0x11223344, [7])
    ∧ pop_i16 (leBytes 2 (toUnsigned 16 (-2)) ++ []) = some (-2, [])
    ∧ pop_f32 (leBytes 4 0x7fc00001 ++ []) = some (0x7fc00001, [])
    ∧ pop_char (leBytes 4 99 ++ []) = some (99, []) := by
  refine ⟨?_, ?_, ?_, ?_, ?_⟩
  · have h := c9_little_endian_scalar_roundtrip.1 4 0x11223344 1 (by norm_num)
    rw [h]
    norm_num
  · exact c9_little_endian_scalar_roundtrip.2.2.1 0x11223344 [7] (by norm_num)
  · exact c9_little_endian_scalar_roundtrip.2.2.2.2.2.1 (-2) [] (by norm_num) (by norm_num)
  · exact c9_little_endian_scalar_roundtrip.2.2.2.2.2.2.2.2.2.2.1 0x7fc00001 [] (by norm_num)
  · exact c9_little_endian_scalar_roundtrip.2.2.2.2.2.2.2.2.2.2.2 99 [] (by decide)

/-- C2: tracing the two `WithSkipped` struct values whose
`always_skipped` field is omitted in both occurrences.  The code is at
odds with the claim (and with the repo's own `test_always_skipped`):
`build`'s `skippable.retain` drops an always-skipped field (its draft is
an empty union) from the skip list, so the finished struct node carries
skip-list `[]` — not `[1]` — while the field keeps a zero-alternative
`Union` type; replaying the trace then aborts with the
`schema-trace mismatch` panic instead of round-tripping.  (The sequence
item type is the collapsed struct node itself, as the claim's second
half describes.) -/
theorem c2_always_skipped_code_bug :
    (to_value 100 withSkippedInput).map (fun v =>
        (v.schema.field_lists, v.schema.schemas, v.schema.schema_lists,
          v.root_index))
      = .ok ([[]],
        [.u32, .union 0, .struct 0 0 0 1, .sequence 2],
        [[], [0, 1]], 3)
    ∧ (to_value 100 withSkippedInput).map (emitFailure 100)
      = .ok (Option.some (.panicked "schema-trace mismatch")) := by
  constructor
  · set_option maxRecDepth 100000 in decide
  · set_option maxRecDepth 100000 in decide

/-- Counterexample for C3: tracing the empty sequence `Vec::<u32>::new()`
finishes into a Schema whose sequence item is a `Union` node with zero
alternatives — a `Union` with fewer than 2 alternatives persists in a
finished Schema. -/
theorem c3_empty_union_counterexample :
    ∃ v, to_value 10 (SValue.seq []) = .ok v
      ∧ v.root_index = 1
      ∧ v.schema.schema 1 = Option.some (.sequence 0)
      ∧ v.schema.schema 0 = Option.some (.union 0)
      ∧ v.schema.schema_list 0 = Option.some [] := by
  refine ⟨emptySeqValue, ?_, ?_, ?_, ?_, ?_⟩
  · set_option maxRecDepth 10000 in decide
  · decide
  · decide
  · decide
  · decide

theorem insertSorted_eq_orderedInsert (x : Nat) (l : List Nat) :
    insertSorted x l = List.orderedInsert (· ≤ ·) x l := by
  induction l with
  | nil => rfl
  | cons y ys ih => simp [insertSorted, List.orderedInsert, ih]

theorem sortNat_eq_insertionSort (l : List Nat) :
    sortNat l = List.insertionSort (· ≤ ·) l := by
  induction l with
  | nil => rfl
  | cons x xs ih =>
    simp [sortNat, List.insertionSort, insertSorted_eq_orderedInsert]
    rw [← ih]; rfl

theorem chain'_le_sortNat (l : List Nat) : (sortNat l).Chain' (· ≤ ·) := by
  rw [sortNat_eq_insertionSort]
  exact (List.sorted_insertionSort _ l).chain'

theorem dedupAdj_cons : ∀ (xs : List Nat) (x : Nat), ∃ t, dedupAdj (x :: xs) = x :: t
  | [], _ => ⟨[], rfl⟩
  | b :: rest, x => by
    by_cases h : x = b
    · obtain ⟨t, ht⟩ := dedupAdj_cons rest b
      exact ⟨t, by simp [dedupAdj, h, ht]⟩
    · exact ⟨dedupAdj (b :: rest), by simp [dedupAdj, h]⟩

theorem chain'_lt_dedupAdj : ∀ l : List Nat, l.Chain' (· ≤ ·) → (dedupAdj l).Chain' (· < ·)
  | [], _ => by simp [dedupAdj]
  | [_], _ => by simp [dedupAdj]
  | x :: b :: rest, h => by
    rw [List.chain'_cons] at h
    obtain ⟨hxb, hrest⟩ := h
    by_cases hxeq : x = b
    · simpa [dedupAdj, hxeq] using chain'_lt_dedupAdj (b :: rest) hrest
    · have hr := chain'_lt_dedupAdj (b :: rest) hrest
      obtain ⟨t, ht⟩ := dedupAdj_cons rest b
      rw [ht] at hr
      simp only [dedupAdj, if_neg hxeq, ht, List.chain'_cons]
      exact ⟨lt_of_le_of_ne hxb hxeq, hr⟩

theorem chain'_lt_sortDedup (l : List Nat) : (dedupAdj (sortNat l)).Chain' (· < ·) :=
  chain'_lt_dedupAdj _ (chain'_le_sortNat l)

theorem findIdx?_decide_some {α : Type} [DecidableEq α] {v : α} :
    ∀ {pool : List α} {i : Nat},
      pool.findIdx? (fun x => decide (x = v)) = some i → pool[i]? = some v
  | [], _, h => by simp [List.findIdx?] at h
  | x :: xs, i, h => by
    rw [List.findIdx?_cons] at h
    by_cases hx : x = v
    · simp [hx] at h; subst h; simp [hx]
    · simp [hx] at h
      obtain ⟨j, hj, rfl⟩ := h
      simpa using findIdx?_decide_some hj

theorem getElem?_append_some {α : Type} {l e : List α} {j : Nat} {x : α}
    (h : l[j]? = some x) : (l ++ e)[j]? = some x := by
  have hj : j < l.length := by
    by_contra hc
    rw [List.getElem?_eq_none (by omega)] at h
    exact Option.noConfusion h
  rw [List.getElem?_append, if_pos hj]; exact h

theorem getElem?_concat_len {α : Type} (l : List α) (x : α) :
    (l ++ [x])[l.length]? = some x := by
  rw [List.getElem?_append]
  simp

theorem internPool_ok {α : Type} [DecidableEq α] {pool : List α} {v : α}
    {err : SerError} {i : Nat} {pool2 : List α}
    (h : internPool pool v err = .ok (i, pool2)) :
    pool2 = pool ∧ pool[i]? = some v
      ∨ pool2 = pool ++ [v] ∧ i = pool.length := by
  unfold internPool at h
  split at h
  next j hfind =>
    split at h
    · injection h with h'
      injection h' with h1 h2
      subst h1; subst h2
      exact Or.inl ⟨rfl, findIdx?_decide_some hfind⟩
    · cases h
  next hfind =>
    split at h
    · injection h with h'
      injection h' with h1 h2
      exact Or.inr ⟨h2.symm, h1.symm⟩
    · cases h

theorem unionsSorted_extend {schemas : List Schema} {lists lists2 : List (List Nat)}
    (h : UnionsSorted schemas lists)
    (hp : ∀ (j : Nat) (x : List Nat), lists[j]? = some x → lists2[j]? = some x) :
    UnionsSorted schemas lists2 := fun li hm =>
  let ⟨l, hl, hc⟩ := h li hm
  ⟨l, hp _ _ hl, hc⟩

theorem exceptBind_ok {ε α β : Type} {x : Except ε α} {f : α → Except ε β} {b : β}
    (h : (do let a ← x; f a) = .ok b) : ∃ a, x = .ok a ∧ f a = .ok b := by
  cases x with
  | error e =>
    rw [show ((do let a ← Except.error e; f a) : Except ε β) = Except.error e from rfl] at h
    cases h
  | ok a =>
    rw [show ((do let a2 ← Except.ok a; f a2) : Except ε β) = f a from rfl] at h
    exact ⟨a, rfl, h⟩

theorem internSchema_ok {sc : Schema} {st : BState} {i : Nat} {st2 : BState}
    (h : BState.internSchema sc st = .ok (i, st2)) :
    st2.schema_lists = st.schema_lists
      ∧ (st2.schemas = st.schemas ∨ st2.schemas = st.schemas ++ [sc]) := by
  obtain ⟨d, ns, nl, s, sl, fl⟩ := st
  replace h : (match internPool s sc SerError.TooManySchemas with
      | Except.error e => Except.error e
      | Except.ok (i2, s2) =>
        Except.ok (i2, (⟨d, ns, nl, s2, sl, fl⟩ : BState))) = .ok (i, st2) := h
  cases hp : internPool s sc SerError.TooManySchemas with
  | error e => rw [hp] at h; cases h
  | ok p =>
    obtain ⟨j, s2⟩ := p
    rw [hp] at h
    injection h with h'
    injection h' with h1 h2
    subst h1; subst h2
    rcases internPool_ok hp with ⟨he, _⟩ | ⟨he, _⟩
    · exact ⟨rfl, Or.inl (by simp [he])⟩
    · exact ⟨rfl, Or.inr (by simp [he])⟩

theorem internSchemaList_ok {l : List Nat} {st : BState} {i : Nat} {st2 : BState}
    (h : BState.internSchemaList l st = .ok (i, st2)) :
    st2.schemas = st.schemas
      ∧ st2.schema_lists[i]? = some l
      ∧ ∀ (j : Nat) (x : List Nat), st.schema_lists[j]? = some x →
          st2.schema_lists[j]? = some x := by
  obtain ⟨d, ns, nl, s, sl, fl⟩ := st
  replace h : (match internPool sl l SerError.TooManySchemaLists with
      | Except.error e => Except.error e
      | Except.ok (i2, sl2) =>
        Except.ok (i2, (⟨d, ns, nl, s, sl2, fl⟩ : BState))) = .ok (i, st2) := h
  cases hp : internPool sl l SerError.TooManySchemaLists with
  | error e => rw [hp] at h; cases h
  | ok p =>
    obtain ⟨j, sl2⟩ := p
    rw [hp] at h
    injection h with h'
    injection h' with h1 h2
    subst h1; subst h2
    rcases internPool_ok hp with ⟨he, hg⟩ | ⟨he, hi⟩
    · subst he; exact ⟨rfl, hg, fun _ _ hx => hx⟩
    · subst he; subst hi
      exact ⟨rfl, getElem?_concat_len sl l, fun _ _ hx => getElem?_append_some hx⟩

theorem internFieldList_ok {l : List Nat} {st : BState} {i : Nat} {st2 : BState}
    (h : BState.internFieldList l st = .ok (i, st2)) :
    st2.schemas = st.schemas ∧ st2.schema_lists = st.schema_lists := by
  obtain ⟨d, ns, nl, s, sl, fl⟩ := st
  replace h : (match internPool fl l SerError.TooManyFields with
      | Except.error e => Except.error e
      | Except.ok (i2, fl2) =>
        Except.ok (i2, (⟨d, ns, nl, s, sl, fl2⟩ : BState))) = .ok (i, st2) := h
  cases hp : internPool fl l SerError.TooManyFields with
  | error e => rw [hp] at h; cases h
  | ok p =>
    obtain ⟨j, fl2⟩ := p
    rw [hp] at h
    injection h with h'
    injection h' with h1 h2
    subst h1; subst h2
    exact ⟨rfl, rfl⟩

theorem internSchema_preserves {sc : Schema} {st : BState} {i : Nat} {st2 : BState}
    (h : BState.internSchema sc st = .ok (i, st2))
    (hinv : UnionsSorted st.schemas st.schema_lists)
    (hsc : ∀ li, sc = Schema.union li →
      ∃ l, st.schema_lists[li]? = some l ∧ l.Chain' (· < ·)) :
    UnionsSorted st2.schemas st2.schema_lists := by
  obtain ⟨hl, hs | hs⟩ := internSchema_ok h
  · rw [hl, hs]; exact hinv
  · rw [hl, hs]
    intro li hm
    rcases List.mem_append.mp hm with hm | hm
    · exact hinv li hm
    · rw [List.mem_singleton] at hm
      exact hsc li hm.symm

mutual

theorem build_unionsSorted :
    ∀ (draft : SchemaBuilder) (st : BState) (i : Nat) (st2 : BState),
      UnionsSorted st.schemas st.schema_lists →
      build draft st = .ok (i, st2) →
      UnionsSorted st2.schemas st2.schema_lists
  | .bool, _, _, _, hinv, h
  | .i8, _, _, _, hinv, h
  | .i16, _, _, _, hinv, h
  | .i32, _, _, _, hinv, h
  | .i64, _, _, _, hinv, h
  | .i128, _, _, _, hinv, h
  | .u8, _, _, _, hinv, h
  | .u16, _, _, _, hinv, h
  | .u32, _, _, _, hinv, h
  | .u64, _, _, _, hinv, h
  | .u128, _, _, _, hinv, h
  | .f32, _, _, _, hinv, h
  | .f64, _, _, _, hinv, h
  | .char, _, _, _, hinv, h
  | .string, _, _, _, hinv, h
  | .bytes, _, _, _, hinv, h
  | .optionNone, _, _, _, hinv, h =>
    internSchema_preserves h hinv (fun _ hli => Schema.noConfusion hli)
  | .optionSome inner, st, i, st2, hinv, h => by
    obtain ⟨⟨i1, st1⟩, hb, h⟩ := exceptBind_ok h
    exact internSchema_preserves h
      (build_unionsSorted inner st i1 st1 hinv hb)
      (fun _ hli => Schema.noConfusion hli)
  | .unit nm, st, i, st2, hinv, h => by
    rcases nm with _ | ⟨n, _ | v⟩ <;>
      exact internSchema_preserves h hinv (fun _ hli => Schema.noConfusion hli)
  | .newtype tn inner, st, i, st2, hinv, h => by
    obtain ⟨n, var⟩ := tn
    rcases var with _ | v
    · obtain ⟨⟨i1, st1⟩, hb, h⟩ := exceptBind_ok h
      exact internSchema_preserves h
        (build_unionsSorted inner st i1 st1 hinv hb)
        (fun _ hli => Schema.noConfusion hli)
    · obtain ⟨⟨i1, st1⟩, hb, h⟩ := exceptBind_ok h
      exact internSchema_preserves h
        (build_unionsSorted inner st i1 st1 hinv hb)
        (fun _ hli => Schema.noConfusion hli)
  | .map key value, st, i, st2, hinv, h => by
    obtain ⟨⟨k1, st1⟩, hb1, h⟩ := exceptBind_ok h
    obtain ⟨⟨v1, stv⟩, hb2, h⟩ := exceptBind_ok h
    exact internSchema_preserves h
      (build_unionsSorted value st1 v1 stv
        (build_unionsSorted key st k1 st1 hinv hb1) hb2)
      (fun _ hli => Schema.noConfusion hli)
  | .sequence item, st, i, st2, hinv, h => by
    obtain ⟨⟨i1, st1⟩, hb, h⟩ := exceptBind_ok h
    exact internSchema_preserves h
      (build_unionsSorted item st i1 st1 hinv hb)
      (fun _ hli => Schema.noConfusion hli)
  | .union alts, st, i, st2, hinv, h => by
    obtain ⟨⟨indices, st1⟩, hb, h⟩ := exceptBind_ok h
    obtain ⟨⟨listIdx, stl⟩, hl, h⟩ := exceptBind_ok h
    obtain ⟨hs, hat, hpres⟩ := internSchemaList_ok hl
    have hinv1 := buildList_unionsSorted alts st indices st1 hinv hb
    refine internSchema_preserves h ?_ ?_
    · rw [hs]; exact unionsSorted_extend hinv1 hpres
    · intro li hli
      injection hli with h2
      subst h2
      exact ⟨dedupAdj (sortNat indices), hat, chain'_lt_sortDedup indices⟩
  | .record nm fieldNames fieldTypes skippable length, st, i, st2, hinv, h => by
    obtain ⟨kept, hr, h⟩ := exceptBind_ok h
    obtain ⟨⟨indices, st1⟩, hb, h⟩ := exceptBind_ok h
    obtain ⟨⟨typeList, stl⟩, hl, h⟩ := exceptBind_ok h
    obtain ⟨hs, _, hpres⟩ := internSchemaList_ok hl
    have hinv1 : UnionsSorted stl.schemas stl.schema_lists := by
      rw [hs]
      exact unionsSorted_extend
        (buildList_unionsSorted fieldTypes st indices st1 hinv hb) hpres
    rcases nm with _ | ⟨n, _ | v⟩ <;> rcases fieldNames with _ | nl
    · exact internSchema_preserves h hinv1 (fun _ hli => Schema.noConfusion hli)
    · cases h
    · exact internSchema_preserves h hinv1 (fun _ hli => Schema.noConfusion hli)
    · obtain ⟨⟨skipIdx, stf⟩, hf, h⟩ := exceptBind_ok h
      obtain ⟨hfs, hfl⟩ := internFieldList_ok hf
      refine internSchema_preserves h ?_ (fun _ hli => Schema.noConfusion hli)
      rw [hfs, hfl]; exact hinv1
    · exact internSchema_preserves h hinv1 (fun _ hli => Schema.noConfusion hli)
    · obtain ⟨⟨skipIdx, stf⟩, hf, h⟩ := exceptBind_ok h
      obtain ⟨hfs, hfl⟩ := internFieldList_ok hf
      refine internSchema_preserves h ?_ (fun _ hli => Schema.noConfusion hli)
      rw [hfs, hfl]; exact hinv1

theorem buildList_unionsSorted :
    ∀ (drafts : List SchemaBuilder) (st : BState) (is : List Nat) (st2 : BState),
      UnionsSorted st.schemas st.schema_lists →
      buildList drafts st = .ok (is, st2) →
      UnionsSorted st2.schemas st2.schema_lists
  | [], st, is, st2, hinv, h => by
    injection h with h'
    injection h' with h1 h2
    subst h2; exact hinv
  | d :: ds, st, is, st2, hinv, h => by
    obtain ⟨⟨i1, st1⟩, hb, h⟩ := exceptBind_ok h
    obtain ⟨⟨is1, stl⟩, hbs, h⟩ := exceptBind_ok h
    injection h with h'
    injection h' with h1 h2
    subst h2
    exact buildList_unionsSorted ds st1 is1 stl
      (build_unionsSorted d st i1 st1 hinv hb) hbs

end

/-- C3 as amended: whenever `build` succeeds from pools whose existing
union nodes already point at strictly sorted alternative lists (in
particular the pools left by tracing, which never populate the schema
pools), every `Union` node in the resulting pools points at an
alternative list that is sorted by node index and deduplicated
(strictly increasing); the claim's minimum-of-2-alternatives half is
refuted separately. -/
theorem c3_union_sorted_amended (draft : SchemaBuilder) (st : BState)
    (i : Nat) (st2 : BState)
    (hinv : UnionsSorted st.schemas st.schema_lists)
    (h : build draft st = .ok (i, st2)) :
    UnionsSorted st2.schemas st2.schema_lists :=
  build_unionsSorted draft st i st2 hinv h

/-- Witness for the amended C3: building the default draft (the empty
union) from the empty pools. -/
theorem c3_union_sorted_amended_witness :
    build SchemaBuilder.defaultDraft BState.empty
      = .ok (0, (⟨[], [], [], [Schema.union 0], [[]], []⟩ : BState))
    ∧ UnionsSorted [Schema.union 0] [[]] := by
  have hb : build SchemaBuilder.defaultDraft BState.empty
      = .ok (0, (⟨[], [], [], [Schema.union 0], [[]], []⟩ : BState)) := rfl
  refine ⟨hb, ?_⟩
  exact c3_union_sorted_amended SchemaBuilder.defaultDraft BState.empty 0 _
    (fun li hm => absurd hm (List.not_mem_nil _)) hb

set_option maxRecDepth 100000 in
/-- One-step equation for `skippableStructSerializeF` at a successor
fuel value, restating its body. -/
theorem skippableStructSerializeF_succ (fuel : Nat) (root : RootSchema)
    (presence : List Nat) (variant : Nat)
    (skipList schemaList tape : List Nat) :
    skippableStructSerializeF (fuel + 1) root presence variant skipList
        schemaList tape =
      if skipList.length ≤ 64 then
        if skipList.length ≤ 8 then
          match serialized_anonymous_variant (variant % 256) with
          | Except.error e => Except.error (EmitFail.error e)
          | Except.ok variantName =>
            match emitPresentFieldsF fuel root (iter_field_indices presence)
                schemaList tape with
            | Except.error e => Except.error e
            | Except.ok (fields, tape2) =>
              Except.ok (Emitted.tupleVariant UNION_ENUM_NAME (variant % 256)
                variantName fields, tape2)
        else
          match serialized_anonymous_variant (variant % 256) with
          | Except.error e => Except.error (EmitFail.error e)
          | Except.ok variantName =>
            match skippableStructSerializeF fuel root presence (variant / 256)
                (List.drop 8 skipList) schemaList tape with
            | Except.error e => Except.error e
            | Except.ok (inner, tape2) =>
              Except.ok (Emitted.newtypeVariant UNION_ENUM_NAME (variant % 256)
                variantName inner, tape2)
      else
        Except.error
          (EmitFail.panicked "assertion failed: self.skip_list.len() <= 64") :=
  rfl

/-- Counterexample for C4: tracing and building the 65-skippable-field
struct sequence *succeeds* (no `TooManyFields` is returned; the finished
skip list holds all 65 indices), the skippable-struct serializer aborts
with the `assert!(skip_list.len() <= 64)` panic rather than an error
variant, and the 257th anonymous union variant fails with
`SerError::Custom`, not with a `TooManyUnionVariants` variant. -/
theorem c4_error_surface_counterexample :
    (to_value 2000 bigStructInput).map (fun v => v.schema.field_lists)
      = .ok [List.range 65]
    ∧ skippableStructSerializeF 1 RootSchema.emptyPools [] 0 (List.range 65) [] []
      = .error (.panicked "assertion failed: self.skip_list.len() <= 64")
    ∧ serialized_anonymous_variant 256 = .error (.Custom
        ("too many union variants " ++ toString 256 ++ " >= "
          ++ toString MAX_UNION_ENUM_VARIANTS)) := by
  refine ⟨?_, ?_, ?_⟩
  · set_option maxRecDepth 1000000 in set_option maxHeartbeats 8000000 in decide
  · rw [show (1 : Nat) = 0 + 1 from rfl, skippableStructSerializeF_succ,
      if_neg (by simp)]
  · exact serialized_anonymous_variant_of_le 256 (by norm_num)

/-- C4 as amended: emitting a struct node whose skip list has more than
64 entries aborts with the `assert!(self.skip_list.len() <= 64)` panic
(not a `TooManyFields` error), and a discriminator of 256 or more — the
257th distinct synthesized union alternative — fails with a
`SerError::Custom` message (not a `TooManyUnionVariants` variant). -/
theorem c4_error_surface_amended :
    (∀ fuel root presence variant skipList schemaList tape,
      64 < List.length skipList →
      skippableStructSerializeF (fuel + 1) root presence variant skipList
          schemaList tape
        = .error (.panicked "assertion failed: self.skip_list.len() <= 64"))
    ∧ (∀ i, 256 ≤ i →
        serialized_anonymous_variant i = .error (.Custom
          ("too many union variants " ++ toString i ++ " >= "
            ++ toString MAX_UNION_ENUM_VARIANTS))) := by
  constructor
  · intro fuel root presence variant skipList schemaList tape h
    rw [skippableStructSerializeF_succ, if_neg (by omega)]
  · exact fun i hi => serialized_anonymous_variant_of_le i hi

/-- Witness for the amended C4: a concrete 65-entry skip list and the
concrete index 256. -/
theorem c4_error_surface_amended_witness :
    skippableStructSerializeF 1 RootSchema.emptyPools [] 0 (List.range 65) [] []
      = .error (.panicked "assertion failed: self.skip_list.len() <= 64")
    ∧ serialized_anonymous_variant 256 = .error (.Custom
        ("too many union variants " ++ toString 256 ++ " >= "
          ++ toString MAX_UNION_ENUM_VARIANTS)) :=
  ⟨c4_error_surface_amended.1 0 RootSchema.emptyPools [] 0 (List.range 65) [] []
      (by rw [List.length_range]; norm_num),
   c4_error_surface_amended.2 256 (by norm_num)⟩

set_option maxRecDepth 100000 in
/-- One-step equation for `finishSerializeF` at a `Struct` schema node,
restating its arm. -/
theorem finishSerializeF_struct_succ (fuel : Nat) (root : RootSchema)
    (trace : TraceNode) (nm nameList skipList typeList : Nat)
    (tape : List Nat) :
    finishSerializeF (fuel + 1) root trace
        (.struct nm nameList skipList typeList) tape =
      (match root.field_list skipList with
      | Option.none => .error (.panicked "no such field list")
      | Option.some skips =>
        match root.schema_list typeList with
        | Option.none => .error (.panicked "no such schema list")
        | Option.some schemaList =>
          match root.name_list nameList with
          | Option.none => .error (.panicked "no such name list")
          | Option.some names =>
            match popLe 4 tape with
            | Option.none => .error (.panicked "expected bytes")
            | Option.some (length, tape2) =>
              match popSlice (length * 4) tape2 with
              | Option.none => .error (.panicked "expected bytes")
              | Option.some (presence, tape3) =>
                if names.length = schemaList.length then
                  if skips.isEmpty then
                    match emitListF fuel root schemaList tape3 with
                    | .error e => .error e
                    | .ok (elems, tape4) => .ok (.tuple elems, tape4)
                  else
                    skippableStructSerializeF fuel root presence
                      (variant_from_presence skips presence) skips schemaList
                      tape3
                else
                  .error (.panicked
                    "assertion failed: name_list.len() == schema_list.len()")) :=
  rfl

set_option maxRecDepth 100000 in
/-- One-step equation for `finishSerializeF` at a `StructVariant` schema
node, restating its arm. -/
theorem finishSerializeF_structVariant_succ (fuel : Nat) (root : RootSchema)
    (trace : TraceNode) (nm vr nameList skipList typeList : Nat)
    (tape : List Nat) :
    finishSerializeF (fuel + 1) root trace
        (.structVariant nm vr nameList skipList typeList) tape =
      (match root.field_list skipList with
      | Option.none => .error (.panicked "no such field list")
      | Option.some skips =>
        match root.schema_list typeList with
        | Option.none => .error (.panicked "no such schema list")
        | Option.some schemaList =>
          match root.name_list nameList with
          | Option.none => .error (.panicked "no such name list")
          | Option.some names =>
            match popLe 4 tape with
            | Option.none => .error (.panicked "expected bytes")
            | Option.some (length, tape2) =>
              match popSlice (length * 4) tape2 with
              | Option.none => .error (.panicked "expected bytes")
              | Option.some (presence, tape3) =>
                if names.length = schemaList.length then
                  if skips.isEmpty then
                    match emitListF fuel root schemaList tape3 with
                    | .error e => .error e
                    | .ok (elems, tape4) => .ok (.tuple elems, tape4)
                  else
                    skippableStructSerializeF fuel root presence
                      (variant_from_presence skips presence) skips schemaList
                      tape3
                else
                  .error (.panicked
                    "assertion failed: name_list.len() == schema_list.len()")) :=
  rfl

/-- C10: a `Struct` or `StructVariant` node with an empty skip list is
emitted as a `tuple` of its fields in schema-list order (never through
the struct visitor with field names). -/
theorem c10_empty_skiplist_tuple :
    (∀ (fuel : Nat) (root : RootSchema) (trace : TraceNode)
        (nm nameList skipList typeList : Nat) (tape : List Nat)
        (out : Emitted × List Nat),
      root.field_list skipList = Option.some [] →
      finishSerializeF (fuel + 1) root trace
          (.struct nm nameList skipList typeList) tape = .ok out →
      ∃ schemaList names length tape2 presence tape3 elems tape4,
        root.schema_list typeList = Option.some schemaList
        ∧ root.name_list nameList = Option.some names
        ∧ popLe 4 tape = Option.some (length, tape2)
        ∧ popSlice (length * 4) tape2 = Option.some (presence, tape3)
        ∧ names.length = schemaList.length
        ∧ emitListF fuel root schemaList tape3 = .ok (elems, tape4)
        ∧ out = (.tuple elems, tape4))
    ∧ (∀ (fuel : Nat) (root : RootSchema) (trace : TraceNode)
        (nm vr nameList skipList typeList : Nat) (tape : List Nat)
        (out : Emitted × List Nat),
      root.field_list skipList = Option.some [] →
      finishSerializeF (fuel + 1) root trace
          (.structVariant nm vr nameList skipList typeList) tape = .ok out →
      ∃ schemaList names length tape2 presence tape3 elems tape4,
        root.schema_list typeList = Option.some schemaList
        ∧ root.name_list nameList = Option.some names
        ∧ popLe 4 tape = Option.some (length, tape2)
        ∧ popSlice (length * 4) tape2 = Option.some (presence, tape3)
        ∧ names.length = schemaList.length
        ∧ emitListF fuel root schemaList tape3 = .ok (elems, tape4)
        ∧ out = (.tuple elems, tape4)) := by
  constructor
  · intro fuel root trace nm nameList skipList typeList tape out hskips h
    rw [finishSerializeF_struct_succ] at h
    split at h
    · simp at h
    next skips hskips2 =>
      rw [hskips] at hskips2
      injection hskips2 with he
      subst he
      split at h
      · simp at h
      next schemaList hsl =>
        split at h
        · simp at h
        next names hnl =>
          split at h
          · simp at h
          next length tape2 hpop =>
            split at h
            · simp at h
            next presence tape3 hslice =>
              split at h
              · split at h
                · split at h
                  · simp at h
                  next elems tape4 hemit =>
                    injection h with h2
                    exact ⟨schemaList, names, length, tape2, presence, tape3,
                      elems, tape4, hsl, hnl, hpop, hslice, by assumption,
                      hemit, h2.symm⟩
                · next hne => exact absurd rfl hne
              · simp at h
  · intro fuel root trace nm vr nameList skipList typeList tape out hskips h
    rw [finishSerializeF_structVariant_succ] at h
    split at h
    · simp at h
    next skips hskips2 =>
      rw [hskips] at hskips2
      injection hskips2 with he
      subst he
      split at h
      · simp at h
      next schemaList hsl =>
        split at h
        · simp at h
        next names hnl =>
          split at h
          · simp at h
          next length tape2 hpop =>
            split at h
            · simp at h
            next presence tape3 hslice =>
              split at h
              · split at h
                · split at h
                  · simp at h
                  next elems tape4 hemit =>
                    injection h with h2
                    exact ⟨schemaList, names, length, tape2, presence, tape3,
                      elems, tape4, hsl, hnl, hpop, hslice, by assumption,
                      hemit, h2.symm⟩
                · next hne => exact absurd rfl hne
              · simp at h

/-- Witness for C10: the concrete fieldless struct and struct variant
both emit `tuple []`. -/
theorem c10_empty_skiplist_tuple_witness :
    (∃ schemaList names length tape2 presence tape3 elems tape4,
      c10Root.schema_list 0 = Option.some schemaList
      ∧ c10Root.name_list 0 = Option.some names
      ∧ popLe 4 [0, 0, 0, 0] = Option.some (length, tape2)
      ∧ popSlice (length * 4) tape2 = Option.some (presence, tape3)
      ∧ names.length = schemaList.length
      ∧ emitListF 1 c10Root schemaList tape3 = .ok (elems, tape4)
      ∧ ((Emitted.tuple [], ([] : List Nat)) : Emitted × List Nat)
          = (.tuple elems, tape4))
    ∧ (∃ schemaList names length tape2 presence tape3 elems tape4,
      c10Root.schema_list 0 = Option.some schemaList
      ∧ c10Root.name_list 0 = Option.some names
      ∧ popLe 4 [0, 0, 0, 0] = Option.some (length, tape2)
      ∧ popSlice (length * 4) tape2 = Option.some (presence, tape3)
      ∧ names.length = schemaList.length
      ∧ emitListF 1 c10Root schemaList tape3 = .ok (elems, tape4)
      ∧ ((Emitted.tuple [], ([] : List Nat)) : Emitted × List Nat)
          = (.tuple elems, tape4)) :=
  ⟨c10_empty_skiplist_tuple.1 1 c10Root .unit 0 0 0 0 [0, 0, 0, 0]
      (.tuple [], []) rfl rfl,
   c10_empty_skiplist_tuple.2 1 c10Root .unit 0 0 0 0 0 [0, 0, 0, 0]
      (.tuple [], []) rfl rfl⟩

/-- `findPositionF` on an empty alternative list: no position found. -/
theorem findPositionF_nil (fuel : Nat) (root : RootSchema)
    (trace : TraceNode) (pos : Nat) :
    findPositionF (fuel + 1) root trace [] pos = .ok Option.none :=
  rfl

/-- One-step equation for `findPositionF` on a nonempty alternative
list, restating its body. -/
theorem findPositionF_cons (fuel : Nat) (root : RootSchema)
    (trace : TraceNode) (altIdx : Nat) (rest : List Nat) (pos : Nat) :
    findPositionF (fuel + 1) root trace (altIdx :: rest) pos =
      (match root.schema altIdx with
      | Option.none => .error (.panicked "no such schema")
      | Option.some altSchema =>
        match checkF fuel root trace altSchema with
        | .error e => .error e
        | .ok (Option.some _) =>
          if pos < 2 ^ 32 then
            .ok (Option.some (.discriminated pos altSchema))
          else .error (.panicked "too many types in union")
        | .ok Option.none => findPositionF fuel root trace rest (pos + 1)) :=
  rfl

/-- One-step equation for `checkF` at a `Union` schema node: delegate to
`findPositionF` over the union's alternative list, from position 0. -/
theorem checkF_union_succ (fuel : Nat) (root : RootSchema)
    (trace : TraceNode) (sl : Nat) :
    checkF (fuel + 1) root trace (.union sl) =
      (match root.schema_list sl with
      | Option.none => .error (.panicked "no such schema list")
      | Option.some alts => findPositionF fuel root trace alts 0) := by
  cases trace <;> rfl

/-- One-step equation for `emitCheckedF` at a successor fuel value,
restating its body. -/
theorem emitCheckedF_succ (fuel : Nat) (root : RootSchema)
    (trace : TraceNode) (s : Schema) (tape : List Nat) :
    emitCheckedF (fuel + 1) root trace s tape =
      (match checkF fuel root trace s with
      | .error e => .error e
      | .ok Option.none => .error (.panicked "schema-trace mismatch")
      | .ok (Option.some .simple) => finishSerializeF fuel root trace s tape
      | .ok (Option.some (.discriminated disc alt)) =>
        match serialized_anonymous_variant disc with
        | .error e => .error (.error e)
        | .ok variantName =>
          match emitCheckedF fuel root trace alt tape with
          | .error e => .error e
          | .ok (inner, tape2) =>
            .ok (.newtypeVariant UNION_ENUM_NAME disc variantName inner,
              tape2)) :=
  rfl

/-- The first-success characterization of `findPositionF`: a
discriminated result names the first alternative whose recursive check
succeeds, and the discriminator is its position. -/
theorem findPositionF_first :
    ∀ (fuel : Nat) (root : RootSchema) (trace : TraceNode)
      (alts : List Nat) (pos disc : Nat) (altS : Schema),
      findPositionF fuel root trace alts pos
          = .ok (Option.some (.discriminated disc altS)) →
      ∃ k altIdx cf res,
        alts[k]? = Option.some altIdx
        ∧ root.schema altIdx = Option.some altS
        ∧ disc = pos + k
        ∧ disc < 2 ^ 32
        ∧ checkF cf root trace altS = .ok (Option.some res)
        ∧ ∀ j, j < k → ∃ altIdxj altSj cfj,
            alts[j]? = Option.some altIdxj
            ∧ root.schema altIdxj = Option.some altSj
            ∧ checkF cfj root trace altSj = .ok Option.none
  | 0, root, trace, alts, pos, disc, altS, h => by simp [findPositionF] at h
  | fuel + 1, root, trace, [], pos, disc, altS, h => by
    rw [findPositionF_nil] at h
    simp at h
  | fuel + 1, root, trace, altIdx :: rest, pos, disc, altS, h => by
    rw [findPositionF_cons] at h
    split at h
    next heq => simp at h
    next altSchema hschema =>
      split at h
      next e heq => simp at h
      next r hcheck =>
        split at h
        · next hpos =>
          injection h with h2
          injection h2 with h3
          injection h3 with h4 h5
          subst h4; subst h5
          exact ⟨0, altIdx, fuel, r, by simp, hschema, by omega, hpos, hcheck,
            fun j hj => absurd hj (by omega)⟩
        · simp at h
      next hcheck =>
        obtain ⟨k, altIdx2, cf, res, hk, hs2, hdisc, hlt, hc2, hprior⟩ :=
          findPositionF_first fuel root trace rest (pos + 1) disc altS h
        refine ⟨k + 1, altIdx2, cf, res, by simpa using hk, hs2,
          by omega, hlt, hc2, ?_⟩
        intro j hj
        match j with
        | 0 => exact ⟨altIdx, altSchema, fuel, by simp, hschema, hcheck⟩
        | j + 1 =>
          obtain ⟨aj, sj, cfj, h1, h2, h3⟩ := hprior j (by omega)
          exact ⟨aj, sj, cfj, by simpa using h1, h2, h3⟩

/-- C6: reaching a `Union` schema node, the cursor checks the popped
trace node against the union's alternatives in order and takes the
position of the first alternative whose recursive check succeeds as the
discriminator; it then emits a newtype variant under the synthetic enum
name `"Union"` with that discriminator, its anonymous variant name, and
the recursively emitted payload. -/
theorem c6_union_discriminator :
    (∀ (fuel : Nat) (root : RootSchema) (trace : TraceNode)
        (sl : Nat) (alts : List Nat),
      root.schema_list sl = Option.some alts →
      checkF (fuel + 1) root trace (.union sl)
        = findPositionF fuel root trace alts 0)
    ∧ (∀ (fuel : Nat) (root : RootSchema) (trace : TraceNode)
        (alts : List Nat) (disc : Nat) (altS : Schema),
      findPositionF fuel root trace alts 0
          = .ok (Option.some (.discriminated disc altS)) →
      ∃ k altIdx cf res,
        alts[k]? = Option.some altIdx
        ∧ root.schema altIdx = Option.some altS
        ∧ disc = k
        ∧ checkF cf root trace altS = .ok (Option.some res)
        ∧ ∀ j, j < k → ∃ altIdxj altSj cfj,
            alts[j]? = Option.some altIdxj
            ∧ root.schema altIdxj = Option.some altSj
            ∧ checkF cfj root trace altSj = .ok Option.none)
    ∧ (∀ (fuel : Nat) (root : RootSchema) (trace : TraceNode) (s : Schema)
        (tape : List Nat) (disc : Nat) (alt : Schema)
        (out : Emitted × List Nat),
      checkF fuel root trace s = .ok (Option.some (.discriminated disc alt)) →
      emitCheckedF (fuel + 1) root trace s tape = .ok out →
      ∃ variantName inner tape2,
        serialized_anonymous_variant disc = .ok variantName
        ∧ emitCheckedF fuel root trace alt tape = .ok (inner, tape2)
        ∧ out = (.newtypeVariant UNION_ENUM_NAME disc variantName inner,
            tape2)) := by
  refine ⟨?_, ?_, ?_⟩
  · intro fuel root trace sl alts halts
    rw [checkF_union_succ, halts]
  · intro fuel root trace alts disc altS h
    obtain ⟨k, altIdx, cf, res, hk, hs, hdisc, _, hc, hprior⟩ :=
      findPositionF_first fuel root trace alts 0 disc altS h
    exact ⟨k, altIdx, cf, res, hk, hs, by omega, hc, hprior⟩
  · intro fuel root trace s tape disc alt out hcheck h
    rw [emitCheckedF_succ, hcheck] at h
    split at h
    next e heq => simp at heq
    next heq => simp at heq
    next heq => simp at heq
    next disc2 alt2 heq =>
      injection heq with h1
      injection h1 with h2
      injection h2 with h3 h4
      subst h3; subst h4
      split at h
      next e heq2 => simp at h
      next variantName hname =>
        split at h
        next e heq3 => simp at h
        next inner tape2 hinner =>
          injection h with h2
          exact ⟨variantName, inner, tape2, hname, hinner, h2.symm⟩

set_option maxRecDepth 100000 in
/-- Witness for C6: checking a `u32` trace node against the
`Union [Bool, U32]` selects position 1, and the emit produces the
`"Union"` newtype variant `_01` around the payload. -/
theorem c6_union_discriminator_witness :
    (checkF 4 c6Root .u32 (.union 0) = findPositionF 3 c6Root .u32 [0, 1] 0)
    ∧ (∃ k altIdx cf res,
        ([0, 1] : List Nat)[k]? = Option.some altIdx
        ∧ c6Root.schema altIdx = Option.some .u32
        ∧ 1 = k
        ∧ checkF cf c6Root .u32 .u32 = .ok (Option.some res)
        ∧ ∀ j, j < k → ∃ altIdxj altSj cfj,
            ([0, 1] : List Nat)[j]? = Option.some altIdxj
            ∧ c6Root.schema altIdxj = Option.some altSj
            ∧ checkF cfj c6Root .u32 altSj = .ok Option.none)
    ∧ (∃ variantName inner tape2,
        serialized_anonymous_variant 1 = .ok variantName
        ∧ emitCheckedF 4 c6Root .u32 .u32 [42, 0, 0, 0] = .ok (inner, tape2)
        ∧ ((Emitted.newtypeVariant UNION_ENUM_NAME 1 "_01" (.u32 42),
              ([] : List Nat)) : Emitted × List Nat)
            = (.newtypeVariant UNION_ENUM_NAME 1 variantName inner, tape2)) :=
  ⟨c6_union_discriminator.1 3 c6Root .u32 0 [0, 1] rfl,
   c6_union_discriminator.2.1 3 c6Root .u32 [0, 1] 1 .u32 rfl,
   c6_union_discriminator.2.2 4 c6Root .u32 (.union 0) [42, 0, 0, 0] 1 .u32
     (.newtypeVariant UNION_ENUM_NAME 1 "_01" (.u32 42), []) rfl rfl⟩

theorem iter_field_indices_append (e : Nat) (he : e < 2 ^ 32)
    (rest : List Nat) :
    iter_field_indices (leBytes 4 e ++ rest) = e :: iter_field_indices rest := by
  have h4 : leBytes 4 e
      = e % 256 :: e / 256 % 256 :: e / 256 / 256 % 256
        :: e / 256 / 256 / 256 % 256 :: [] := by
    rw [show (4 : Nat) = 3 + 1 from rfl, leBytes_succ,
      show (3 : Nat) = 2 + 1 from rfl, leBytes_succ,
      show (2 : Nat) = 1 + 1 from rfl, leBytes_succ,
      show (1 : Nat) = 0 + 1 from rfl, leBytes_succ]
    simp [leBytes]
  rw [h4]
  show fromLeBytes [e % 256, e / 256 % 256, e / 256 / 256 % 256,
      e / 256 / 256 / 256 % 256] :: iter_field_indices rest = _
  congr 1
  rw [← h4]
  exact fromLeBytes_leBytes 4 e (by norm_num; exact he)

theorem iter_field_indices_flatMap :
    ∀ (entries : List Nat), (∀ e ∈ entries, e < 2 ^ 32) →
      iter_field_indices (entries.flatMap (leBytes 4)) = entries
  | [], _ => rfl
  | e :: es, h => by
    rw [List.flatMap_cons, iter_field_indices_append e (h e (by simp))]
    rw [iter_field_indices_flatMap es (fun x hx => h x (by simp [hx]))]

theorem vfpStep_replicate (skip k : Nat) (ps : List Nat)
    (h : skip < 2 ^ 32 - 1) :
    vfpStep skip (List.replicate k (2 ^ 32 - 1) ++ ps) = vfpStep skip ps := by
  induction k with
  | zero => simp
  | succ k ih =>
    rw [List.replicate_succ, List.cons_append]
    simp only [vfpStep]
    rw [if_pos (by omega)]
    exact ih

theorem vfpStep_spec (skip : Nat) :
    ∀ (qs : List Nat), qs.Pairwise (· > ·) →
      vfpStep skip qs
        = (decide (skip ∈ qs), qs.filter (fun p => decide (p < skip)))
  | [], _ => by simp [vfpStep]
  | q :: rest, hp => by
    rw [List.pairwise_cons] at hp
    obtain ⟨hq, hrest⟩ := hp
    rcases Nat.lt_trichotomy skip q with h1 | h1 | h1
    · simp only [vfpStep]
      rw [if_pos (by omega)]
      rw [vfpStep_spec skip rest hrest]
      have hmem : decide (skip ∈ q :: rest) = decide (skip ∈ rest) := by
        simp [List.mem_cons, show skip ≠ q from by omega]
      have hfil : (q :: rest).filter (fun p => decide (p < skip))
          = rest.filter (fun p => decide (p < skip)) := by
        rw [List.filter_cons]
        simp [show ¬ q < skip from by omega]
      rw [hmem, hfil]
    · simp only [vfpStep]
      rw [if_neg (by omega), if_pos (by omega)]
      have hmem : skip ∈ q :: rest := by simp [h1]
      have hfil : (q :: rest).filter (fun p => decide (p < skip)) = rest := by
        rw [List.filter_cons]
        simp only [show ¬ q < skip from by omega, decide_eq_true_eq,
          if_false]
        exact List.filter_eq_self.mpr (fun x hx => by
          simp only [decide_eq_true_eq]
          have := hq x hx
          omega)
      rw [hfil]
      simp [hmem]
    · simp only [vfpStep]
      rw [if_neg (by omega), if_neg (by omega)]
      have hmem : ¬ skip ∈ q :: rest := by
        simp only [List.mem_cons]
        push_neg
        refine ⟨by omega, fun hc => ?_⟩
        have := hq skip hc
        omega
      have hfil : (q :: rest).filter (fun p => decide (p < skip))
          = q :: rest := by
        exact List.filter_eq_self.mpr (fun x hx => by
          simp only [decide_eq_true_eq]
          rcases List.mem_cons.mp hx with rfl | hx
          · omega
          · have := hq x hx; omega)
      rw [hfil]
      simp [hmem]

theorem foldl_mem_congr (qs qs2 : List Nat) :
    ∀ (l : List Nat) (v : Nat),
      (∀ x ∈ l, (x ∈ qs) ↔ (x ∈ qs2)) →
      l.foldl (fun acc s => acc * 2 % 2 ^ 64 + (if s ∈ qs then 1 else 0)) v
        = l.foldl (fun acc s => acc * 2 % 2 ^ 64 + (if s ∈ qs2 then 1 else 0)) v
  | [], _, _ => rfl
  | x :: l, v, h => by
    simp only [List.foldl_cons]
    rw [if_congr (h x (by simp)) rfl rfl]
    exact foldl_mem_congr qs qs2 l _ (fun y hy => h y (by simp [hy]))

theorem vfpGo_spec :
    ∀ (rr qs : List Nat) (v : Nat), rr.Pairwise (· > ·) →
      qs.Pairwise (· > ·) →
      vfpGo qs rr v
        = rr.foldl (fun acc s => acc * 2 % 2 ^ 64 + (if s ∈ qs then 1 else 0)) v
  | [], _, _, _, _ => rfl
  | s :: rest, qs, v, hrr, hqs => by
    rw [List.pairwise_cons] at hrr
    obtain ⟨hs, hrest⟩ := hrr
    simp only [vfpGo]
    rw [vfpStep_spec s qs hqs]
    have h2 : vfpGo (qs.filter (fun p => decide (p < s))) rest
        (if decide (s ∈ qs) then v * 2 % 2 ^ 64 + 1 else v * 2 % 2 ^ 64)
        = rest.foldl
            (fun acc x => acc * 2 % 2 ^ 64
              + (if x ∈ qs.filter (fun p => decide (p < s)) then 1 else 0))
            (if decide (s ∈ qs) then v * 2 % 2 ^ 64 + 1 else v * 2 % 2 ^ 64) :=
      vfpGo_spec rest _ _ hrest (hqs.filter _)
    rw [h2]
    rw [foldl_mem_congr _ qs rest _ (fun x hx => by
      rw [List.mem_filter]
      simp only [decide_eq_true_eq]
      have := hs x hx
      exact ⟨fun h => h.1, fun h => ⟨h, this⟩⟩)]
    simp only [List.foldl_cons]
    congr 1
    split
    · next hmem => rw [if_pos (by simpa using hmem)]
    · next hmem =>
        rw [if_neg (by simpa using hmem)]
        omega

theorem bits_foldr (qs : List Nat) :
    ∀ (ss : List Nat), ss.length ≤ 64 →
      ss.foldr (fun s acc => acc * 2 % 2 ^ 64 + (if s ∈ qs then 1 else 0)) 0
          < 2 ^ ss.length
      ∧ ∀ (i : Nat) (h : i < ss.length),
        (ss.foldr (fun s acc => acc * 2 % 2 ^ 64 + (if s ∈ qs then 1 else 0))
            0).testBit i
          = decide (ss.get ⟨i, h⟩ ∈ qs)
  | [], _ => ⟨by simp, fun i h => absurd h (by simp)⟩
  | s :: rest, hlen => by
    obtain ⟨hbound, hbits⟩ := bits_foldr qs rest (by
      simp only [List.length_cons] at hlen
      omega)
    have hpow : (2 : Nat) ^ rest.length ≤ 2 ^ 63 :=
      Nat.pow_le_pow_right (by norm_num) (by
        simp only [List.length_cons] at hlen
        omega)
    have hb : (if s ∈ qs then 1 else 0) ≤ 1 := by split <;> omega
    simp only [List.foldr_cons]
    have hmod : rest.foldr
        (fun s acc => acc * 2 % 2 ^ 64 + (if s ∈ qs then 1 else 0)) 0 * 2
          % 2 ^ 64
        = rest.foldr
            (fun s acc => acc * 2 % 2 ^ 64 + (if s ∈ qs then 1 else 0)) 0
            * 2 := by
      apply Nat.mod_eq_of_lt
      have h64 : (2 : Nat) ^ 63 * 2 = 2 ^ 64 := by norm_num
      omega
    rw [hmod]
    constructor
    · conv_rhs => rw [show ((s :: rest).length) = rest.length + 1 from rfl,
        pow_succ]
      omega
    · intro i h
      match i with
      | 0 =>
        simp only [List.get]
        rw [Nat.testBit_zero]
        split
        · next hmem =>
          simp [hmem]
          try omega
        · next hmem =>
          simp [hmem]
          try omega
      | i + 1 =>
        rw [Nat.testBit_succ]
        have hdiv : (rest.foldr
            (fun s acc => acc * 2 % 2 ^ 64 + (if s ∈ qs then 1 else 0)) 0 * 2
            + (if s ∈ qs then 1 else 0)) / 2
            = rest.foldr
                (fun s acc => acc * 2 % 2 ^ 64 + (if s ∈ qs then 1 else 0))
                0 := by
          omega
        rw [hdiv]
        simp only [List.length_cons] at h
        rw [hbits i (by omega)]
        rfl

theorem vfpGo_replicate (k : Nat) (qs rr : List Nat) (v : Nat)
    (h : ∀ s ∈ rr, s < 2 ^ 32 - 1) :
    vfpGo (List.replicate k (2 ^ 32 - 1) ++ qs) rr v = vfpGo qs rr v := by
  cases rr with
  | nil => rfl
  | cons s rest =>
    simp only [vfpGo]
    rw [vfpStep_replicate s k qs (h s (by simp))]

theorem variant_from_presence_spec (skip_list pres : List Nat) (k : Nat)
    (hss : skip_list.Pairwise (· < ·))
    (hsb : ∀ s ∈ skip_list, s < 2 ^ 32 - 1)
    (hps : pres.Pairwise (· < ·))
    (hpb : ∀ p ∈ pres, p < 2 ^ 32 - 1)
    (hlen : skip_list.length ≤ 64)
    (i : Nat) (h : i < skip_list.length) :
    (variant_from_presence skip_list
        ((pres ++ List.replicate k (2 ^ 32 - 1)).flatMap (leBytes 4))).testBit i
      = decide (skip_list.get ⟨i, h⟩ ∈ pres) := by
  unfold variant_from_presence
  rw [iter_field_indices_flatMap _ (by
    intro e he
    rcases List.mem_append.mp he with he | he
    · have := hpb e he
      omega
    · rw [List.eq_of_mem_replicate he]
      omega)]
  rw [List.reverse_append, List.reverse_replicate]
  rw [vfpGo_replicate k _ _ 0 (fun s hs => hsb s (by
    rwa [List.mem_reverse] at hs))]
  rw [vfpGo_spec _ _ 0
    (by rw [List.pairwise_reverse]; exact hss)
    (by rw [List.pairwise_reverse]; exact hps)]
  rw [List.foldl_reverse]
  simp only [List.mem_reverse]
  exact (bits_foldr pres skip_list hlen).2 i h

/-- C5: for a strictly increasing skip list (entries below the reserved
filler `2^32-1`) and presence bytes decoding to a strictly increasing
present-field sequence followed by unfilled reserved slots (`2^32-1`),
bit `i` of the computed variant mask is set iff `skip_list[i]` is
present; the variant index handed to the sink is the low byte of the
mask, with at most 8 skippable fields emitted as one tuple variant of
the present fields in order and more than 8 as nested newtype variants
consuming 8 skip bits (one low byte) per level. -/
theorem c5_presence_bitmask :
    (∀ (skip_list pres : List Nat) (k : Nat),
      skip_list.Pairwise (· < ·) →
      (∀ s ∈ skip_list, s < 2 ^ 32 - 1) →
      pres.Pairwise (· < ·) →
      (∀ p ∈ pres, p < 2 ^ 32 - 1) →
      skip_list.length ≤ 64 →
      ∀ (i : Nat) (h : i < skip_list.length),
        (variant_from_presence skip_list
            ((pres ++ List.replicate k (2 ^ 32 - 1)).flatMap
              (leBytes 4))).testBit i
          = decide (skip_list.get ⟨i, h⟩ ∈ pres))
    ∧ (∀ (fuel : Nat) (root : RootSchema) (presence : List Nat)
        (variant : Nat) (skipList schemaList tape : List Nat)
        (out : Emitted × List Nat),
      skipList.length ≤ 8 →
      skippableStructSerializeF (fuel + 1) root presence variant skipList
          schemaList tape = .ok out →
      ∃ variantName fields tape2,
        serialized_anonymous_variant (variant % 256) = .ok variantName
        ∧ emitPresentFieldsF fuel root (iter_field_indices presence)
            schemaList tape = .ok (fields, tape2)
        ∧ out = (.tupleVariant UNION_ENUM_NAME (variant % 256) variantName
            fields, tape2))
    ∧ (∀ (fuel : Nat) (root : RootSchema) (presence : List Nat)
        (variant : Nat) (skipList schemaList tape : List Nat)
        (out : Emitted × List Nat),
      8 < skipList.length → skipList.length ≤ 64 →
      skippableStructSerializeF (fuel + 1) root presence variant skipList
          schemaList tape = .ok out →
      ∃ variantName inner tape2,
        serialized_anonymous_variant (variant % 256) = .ok variantName
        ∧ skippableStructSerializeF fuel root presence (variant / 256)
            (List.drop 8 skipList) schemaList tape = .ok (inner, tape2)
        ∧ out = (.newtypeVariant UNION_ENUM_NAME (variant % 256) variantName
            inner, tape2)) := by
  refine ⟨?_, ?_, ?_⟩
  · intro skip_list pres k hss hsb hps hpb hlen i h
    exact variant_from_presence_spec skip_list pres k hss hsb hps hpb hlen i h
  · intro fuel root presence variant skipList schemaList tape out h8 h
    rw [skippableStructSerializeF_succ, if_pos (by omega), if_pos h8] at h
    split at h
    next e heq => simp at h
    next variantName hname =>
      split at h
      next e heq => simp at h
      next fields tape2 hemit =>
        injection h with h2
        exact ⟨variantName, fields, tape2, hname, hemit, h2.symm⟩
  · intro fuel root presence variant skipList schemaList tape out h8 h64 h
    rw [skippableStructSerializeF_succ, if_pos h64, if_neg (by omega)] at h
    split at h
    next e heq => simp at h
    next variantName hname =>
      split at h
      next e heq => simp at h
      next inner tape2 hinner =>
        injection h with h2
        exact ⟨variantName, inner, tape2, hname, hinner, h2.symm⟩

set_option maxRecDepth 100000 in
/-- Witness for C5: the skip list `[0, 2]` against present field `2`
plus one unfilled slot; a 1-field and a 9-field skippable emission. -/
theorem c5_presence_bitmask_witness :
    ((variant_from_presence [0, 2]
        (([2] ++ List.replicate 1 (2 ^ 32 - 1)).flatMap
          (leBytes 4))).testBit 1
      = decide (([0, 2] : List Nat).get ⟨1, by simp⟩ ∈ ([2] : List Nat)))
    ∧ (∃ variantName fields tape2,
        serialized_anonymous_variant (0 % 256) = .ok variantName
        ∧ emitPresentFieldsF 1 RootSchema.emptyPools (iter_field_indices [])
            [] [] = .ok (fields, tape2)
        ∧ ((Emitted.tupleVariant UNION_ENUM_NAME 0 "_00" [], ([] : List Nat))
            : Emitted × List Nat)
          = (.tupleVariant UNION_ENUM_NAME (0 % 256) variantName fields,
              tape2))
    ∧ (∃ variantName inner tape2,
        serialized_anonymous_variant (0 % 256) = .ok variantName
        ∧ skippableStructSerializeF 2 RootSchema.emptyPools [] (0 / 256)
            (List.drop 8 (List.range 9)) [] [] = .ok (inner, tape2)
        ∧ ((Emitted.newtypeVariant UNION_ENUM_NAME 0 "_00"
              (.tupleVariant UNION_ENUM_NAME 0 "_00" []), ([] : List Nat))
            : Emitted × List Nat)
          = (.newtypeVariant UNION_ENUM_NAME (0 % 256) variantName inner,
              tape2)) :=
  ⟨c5_presence_bitmask.1 [0, 2] [2] 1 (by simp) (by decide) (by simp)
      (by decide) (by simp) 1 (by simp),
   c5_presence_bitmask.2.1 1 RootSchema.emptyPools [] 0 [0] [] []
      (.tupleVariant UNION_ENUM_NAME 0 "_00" [], []) (by simp) rfl,
   c5_presence_bitmask.2.2 2 RootSchema.emptyPools [] 0 (List.range 9) [] []
      (.newtypeVariant UNION_ENUM_NAME 0 "_00"
        (.tupleVariant UNION_ENUM_NAME 0 "_00" []), [])
      (by simp) (by simp) rfl⟩

mutual

/-- `eqDraft` is reflexive (derived `PartialEq` is an equivalence). -/
theorem eqDraft_refl : ∀ (a : SchemaBuilder), eqDraft a a = true
  | .bool | .i8 | .i16 | .i32 | .i64 | .i128
  | .u8 | .u16 | .u32 | .u64 | .u128
  | .f32 | .f64 | .char | .string | .bytes | .optionNone => rfl
  | .optionSome a => eqDraft_refl a
  | .unit nm => by
    show decide (nm = nm) = true
    simp
  | .newtype nm a => by
    show (decide (nm = nm) && eqDraft a a) = true
    rw [eqDraft_refl a]
    simp
  | .map k v => by
    show (eqDraft k k && eqDraft v v) = true
    rw [eqDraft_refl k, eqDraft_refl v]
    rfl
  | .sequence a => eqDraft_refl a
  | .union alts => eqDraftList_refl alts
  | .record nm fn fts sk len => by
    show (decide (nm = nm) && decide (fn = fn) && eqDraftList fts fts
      && decide (sk = sk) && decide (len = len)) = true
    rw [eqDraftList_refl fts]
    simp

/-- `eqDraftList` is reflexive. -/
theorem eqDraftList_refl : ∀ (l : List SchemaBuilder), eqDraftList l l = true
  | [] => rfl
  | a :: rest => by
    show (eqDraft a a && eqDraftList rest rest) = true
    rw [eqDraft_refl a, eqDraftList_refl rest]
    rfl

end

mutual

/-- `eqDraft` is sound: equal drafts are equal. -/
theorem eqDraft_eq : ∀ (a b : SchemaBuilder), eqDraft a b = true → a = b
  | .bool, b, h => by
    cases b
    case bool => rfl
    all_goals exact Bool.noConfusion h
  | .i8, b, h => by
    cases b
    case i8 => rfl
    all_goals exact Bool.noConfusion h
  | .i16, b, h => by
    cases b
    case i16 => rfl
    all_goals exact Bool.noConfusion h
  | .i32, b, h => by
    cases b
    case i32 => rfl
    all_goals exact Bool.noConfusion h
  | .i64, b, h => by
    cases b
    case i64 => rfl
    all_goals exact Bool.noConfusion h
  | .i128, b, h => by
    cases b
    case i128 => rfl
    all_goals exact Bool.noConfusion h
  | .u8, b, h => by
    cases b
    case u8 => rfl
    all_goals exact Bool.noConfusion h
  | .u16, b, h => by
    cases b
    case u16 => rfl
    all_goals exact Bool.noConfusion h
  | .u32, b, h => by
    cases b
    case u32 => rfl
    all_goals exact Bool.noConfusion h
  | .u64, b, h => by
    cases b
    case u64 => rfl
    all_goals exact Bool.noConfusion h
  | .u128, b, h => by
    cases b
    case u128 => rfl
    all_goals exact Bool.noConfusion h
  | .f32, b, h => by
    cases b
    case f32 => rfl
    all_goals exact Bool.noConfusion h
  | .f64, b, h => by
    cases b
    case f64 => rfl
    all_goals exact Bool.noConfusion h
  | .char, b, h => by
    cases b
    case char => rfl
    all_goals exact Bool.noConfusion h
  | .string, b, h => by
    cases b
    case string => rfl
    all_goals exact Bool.noConfusion h
  | .bytes, b, h => by
    cases b
    case bytes => rfl
    all_goals exact Bool.noConfusion h
  | .optionNone, b, h => by
    cases b
    case optionNone => rfl
    all_goals exact Bool.noConfusion h
  | .optionSome a, b, h => by
    cases b
    case optionSome b2 =>
      exact congrArg SchemaBuilder.optionSome (eqDraft_eq a b2 h)
    all_goals exact Bool.noConfusion h
  | .unit nm, b, h => by
    cases b
    case unit nm2 =>
      replace h : decide (nm = nm2) = true := h
      rw [of_decide_eq_true h]
    all_goals exact Bool.noConfusion h
  | .newtype nm a, b, h => by
    cases b
    case newtype nm2 b2 =>
      replace h : (decide (nm = nm2) && eqDraft a b2) = true := h
      rw [Bool.and_eq_true] at h
      rw [of_decide_eq_true h.1, eqDraft_eq a b2 h.2]
    all_goals exact Bool.noConfusion h
  | .map k v, b, h => by
    cases b
    case map k2 v2 =>
      replace h : (eqDraft k k2 && eqDraft v v2) = true := h
      rw [Bool.and_eq_true] at h
      rw [eqDraft_eq k k2 h.1, eqDraft_eq v v2 h.2]
    all_goals exact Bool.noConfusion h
  | .sequence a, b, h => by
    cases b
    case sequence b2 =>
      exact congrArg SchemaBuilder.sequence (eqDraft_eq a b2 h)
    all_goals exact Bool.noConfusion h
  | .union alts, b, h => by
    cases b
    case union alts2 =>
      exact congrArg SchemaBuilder.union (eqDraftList_eq alts alts2 h)
    all_goals exact Bool.noConfusion h
  | .record nm fn fts sk len, b, h => by
    cases b
    case record nm2 fn2 fts2 sk2 len2 =>
      replace h : (decide (nm = nm2) && decide (fn = fn2)
        && eqDraftList fts fts2 && decide (sk = sk2)
        && decide (len = len2)) = true := h
      simp only [Bool.and_eq_true] at h
      obtain ⟨⟨⟨⟨h1, h2⟩, h3⟩, h4⟩, h5⟩ := h
      rw [of_decide_eq_true h1, of_decide_eq_true h2,
        eqDraftList_eq fts fts2 h3, of_decide_eq_true h4,
        of_decide_eq_true h5]
    all_goals exact Bool.noConfusion h

/-- `eqDraftList` is sound. -/
theorem eqDraftList_eq : ∀ (l m : List SchemaBuilder),
    eqDraftList l m = true → l = m
  | [], [], _ => rfl
  | [], _ :: _, h => Bool.noConfusion h
  | _ :: _, [], h => Bool.noConfusion h
  | a :: rest, b :: rest2, h => by
    replace h : (eqDraft a b && eqDraftList rest rest2) = true := h
    rw [Bool.and_eq_true] at h
    rw [eqDraft_eq a b h.1, eqDraftList_eq rest rest2 h.2]

end

/-- `dedupAdj` preserves membership. -/
theorem mem_dedupAdj : ∀ (l : List Nat) (x : Nat), x ∈ dedupAdj l ↔ x ∈ l
  | [], _ => Iff.rfl
  | [a], _ => Iff.rfl
  | a :: b :: rest, x => by
    by_cases h : a = b
    · subst h
      rw [show dedupAdj (a :: a :: rest) = dedupAdj (a :: rest) from by
        simp [dedupAdj]]
      rw [mem_dedupAdj (a :: rest) x]
      simp [List.mem_cons]
      try tauto
    · rw [show dedupAdj (a :: b :: rest) = a :: dedupAdj (b :: rest) from by
        simp [dedupAdj, h]]
      simp only [List.mem_cons]
      rw [show (x ∈ dedupAdj (b :: rest)) ↔ (x ∈ b :: rest) from
        mem_dedupAdj (b :: rest) x]
      simp [List.mem_cons]

/-- `insertSorted` preserves membership. -/
theorem mem_insertSorted : ∀ (l : List Nat) (y x : Nat),
    x ∈ insertSorted y l ↔ x = y ∨ x ∈ l
  | [], y, x => by simp [insertSorted]
  | a :: rest, y, x => by
    simp only [insertSorted]
    split
    · simp [List.mem_cons]
    · simp only [List.mem_cons, mem_insertSorted rest y x]
      tauto

/-- `sortNat` preserves membership. -/
theorem mem_sortNat : ∀ (l : List Nat) (x : Nat), x ∈ sortNat l ↔ x ∈ l
  | [], _ => Iff.rfl
  | a :: rest, x => by
    show x ∈ insertSorted a (sortNat rest) ↔ _
    rw [mem_insertSorted, mem_sortNat rest x]
    simp [List.mem_cons]

/-- `sortDedup` produces a strictly sorted list. -/
theorem pairwise_lt_sortDedup (l : List Nat) :
    (sortDedup l).Pairwise (· < ·) :=
  List.chain'_iff_pairwise.mp (chain'_lt_sortDedup l)

/-- `sortDedup` preserves membership. -/
theorem mem_sortDedup (l : List Nat) (x : Nat) : x ∈ sortDedup l ↔ x ∈ l := by
  unfold sortDedup
  rw [mem_dedupAdj, mem_sortNat]

/-- Two strictly sorted lists with the same members are equal. -/
theorem eq_of_pairwise_lt_mem : ∀ (l m : List Nat),
    l.Pairwise (· < ·) → m.Pairwise (· < ·) → (∀ x, x ∈ l ↔ x ∈ m) → l = m
  | [], [], _, _, _ => rfl
  | [], b :: _, _, _, hm => absurd ((hm b).mpr (by simp)) (by simp)
  | a :: _, [], _, _, hm => absurd ((hm a).mp (by simp)) (by simp)
  | a :: rest, b :: rest2, hl, hm, hmem => by
    rw [List.pairwise_cons] at hl hm
    obtain ⟨ha, hl⟩ := hl
    obtain ⟨hb, hm⟩ := hm
    have hab : a = b := by
      rcases List.mem_cons.mp ((hmem a).mp (by simp)) with h1 | h1
      · exact h1
      · rcases List.mem_cons.mp ((hmem b).mpr (by simp)) with h2 | h2
        · omega
        · have := ha b h2
          have := hb a h1
          omega
    subst hab
    rw [eq_of_pairwise_lt_mem rest rest2 hl hm (fun x => by
      constructor
      · intro hx
        rcases List.mem_cons.mp ((hmem x).mp (by simp [hx])) with h1 | h1
        · have := ha x hx
          omega
        · exact h1
      · intro hx
        rcases List.mem_cons.mp ((hmem x).mpr (by simp [hx])) with h1 | h1
        · have := hb x hx
          omega
        · exact h1)]

/-- `sortDedup` ignores the concatenation order. -/
theorem sortDedup_append_comm (l m : List Nat) :
    sortDedup (l ++ m) = sortDedup (m ++ l) :=
  eq_of_pairwise_lt_mem _ _ (pairwise_lt_sortDedup _) (pairwise_lt_sortDedup _)
    (fun x => by
      rw [mem_sortDedup, mem_sortDedup, List.mem_append, List.mem_append]
      tauto)

/-- `sortedLtB` captures strict pairwise sortedness. -/
theorem sortedLtB_pairwise : ∀ (l : List Nat),
    sortedLtB l = true → l.Pairwise (· < ·)
  | [], _ => List.Pairwise.nil
  | [a], _ => by simp
  | a :: b :: rest, h => by
    replace h : (decide (a < b) && sortedLtB (b :: rest)) = true := h
    rw [Bool.and_eq_true] at h
    have hp := sortedLtB_pairwise (b :: rest) h.2
    rw [← List.chain'_iff_pairwise] at hp ⊢
    rw [List.chain'_cons]
    exact ⟨of_decide_eq_true h.1, hp⟩

/-- A strictly sorted skip list self-merges to itself. -/
theorem sortDedup_self_append (s : List Nat) (h : s.Pairwise (· < ·)) :
    sortDedup (s ++ s) = s :=
  eq_of_pairwise_lt_mem _ _ (pairwise_lt_sortDedup _) h (fun x => by
    rw [mem_sortDedup, List.mem_append]
    tauto)

/-- One-step equation for `unionD`. -/
theorem unionD_succ (fuel : Nat) (a b : SchemaBuilder) :
    unionD (fuel + 1) a b
      = (unifyF fuel a b).map (fun r =>
          match r with
          | Option.some l => l
          | Option.none => .union [a, b]) :=
  rfl

/-- One-step equation for `unifyFieldsF` on the empty pair list. -/
theorem unifyFieldsF_succ_nil (fuel : Nat) :
    unifyFieldsF (fuel + 1) [] = some [] :=
  rfl

/-- One-step equation for `unifyFieldsF` on a nonempty pair list. -/
theorem unifyFieldsF_succ_cons (fuel : Nat)
    (p : SchemaBuilder × SchemaBuilder)
    (rest : List (SchemaBuilder × SchemaBuilder)) :
    unifyFieldsF (fuel + 1) (p :: rest)
      = (match unionD fuel p.1 p.2, unifyFieldsF fuel rest with
        | Option.some f, Option.some fs => some (f :: fs)
        | _, _ => none) :=
  rfl

/-- Counterexample for C7: unioning the record draft whose skip list is
`[1, 0]` with a copy of itself rewrites the skip list to `[0, 1]` (not
idempotent), and unioning `commLeft` with `commRight` yields one
alternative while the reversed union yields two (not commutative up to
alternative ordering). -/
theorem c7_draft_union_counterexample :
    (unionD 100 (.record Option.none (Option.some 0) [.u32, .u32] [1, 0] 2)
        (.record Option.none (Option.some 0) [.u32, .u32] [1, 0] 2)).map
        (fun r => eqDraft r
          (.record Option.none (Option.some 0) [.u32, .u32] [1, 0] 2))
      = some false
    ∧ (unionD 100 (.record Option.none (Option.some 0) [.u32, .u32] [1, 0] 2)
        (.record Option.none (Option.some 0) [.u32, .u32] [1, 0] 2)).map
        (fun r => eqDraft r
          (.record Option.none (Option.some 0) [.u32, .u32] [0, 1] 2))
      = some true
    ∧ unionAltCount (unionD 100 commLeft commRight) = some 1
    ∧ unionAltCount (unionD 100 commRight commLeft) = some 2 := by
  refine ⟨?_, ?_, ?_, ?_⟩ <;>
    · set_option maxRecDepth 10000 in decide

/-- `unionD` idempotency follows from `unifyF` idempotency at one draft. -/
theorem unionD_of_unify_self {a : SchemaBuilder}
    (hP : ∀ fuel r, unifyF fuel a a = some r → r = some a) :
    ∀ fuel u, unionD fuel a a = some u → u = a := by
  intro fuel u hu
  match fuel with
  | 0 => exact Option.noConfusion hu
  | fuel + 1 =>
    replace hu : (unifyF fuel a a).map (fun r =>
        match r with
        | Option.some l => l
        | Option.none => SchemaBuilder.union [a, a]) = some u := hu
    cases hr : unifyF fuel a a with
    | none => rw [hr] at hu; exact Option.noConfusion hu
    | some r =>
      rw [hr] at hu
      have hra := hP fuel r hr
      subst hra
      injection hu with hu2
      exact hu2.symm

mutual

/-- `unify` of a canonical draft with a copy of itself returns it
unchanged (whenever the fuel suffices). -/
theorem unify_self : ∀ (a : SchemaBuilder), canonical a = true →
    ∀ fuel r, unifyF fuel a a = some r → r = some a
  | .bool, _ => fun fuel r h => by
    match fuel with
    | 0 => exact Option.noConfusion h
    | fuel + 1 =>
      injection h with h2
      exact h2.symm
  | .i8, _ => fun fuel r h => by
    match fuel with
    | 0 => exact Option.noConfusion h
    | fuel + 1 =>
      injection h with h2
      exact h2.symm
  | .i16, _ => fun fuel r h => by
    match fuel with
    | 0 => exact Option.noConfusion h
    | fuel + 1 =>
      injection h with h2
      exact h2.symm
  | .i32, _ => fun fuel r h => by
    match fuel with
    | 0 => exact Option.noConfusion h
    | fuel + 1 =>
      injection h with h2
      exact h2.symm
  | .i64, _ => fun fuel r h => by
    match fuel with
    | 0 => exact Option.noConfusion h
    | fuel + 1 =>
      injection h with h2
      exact h2.symm
  | .i128, _ => fun fuel r h => by
    match fuel with
    | 0 => exact Option.noConfusion h
    | fuel + 1 =>
      injection h with h2
      exact h2.symm
  | .u8, _ => fun fuel r h => by
    match fuel with
    | 0 => exact Option.noConfusion h
    | fuel + 1 =>
      injection h with h2
      exact h2.symm
  | .u16, _ => fun fuel r h => by
    match fuel with
    | 0 => exact Option.noConfusion h
    | fuel + 1 =>
      injection h with h2
      exact h2.symm
  | .u32, _ => fun fuel r h => by
    match fuel with
    | 0 => exact Option.noConfusion h
    | fuel + 1 =>
      injection h with h2
      exact h2.symm
  | .u64, _ => fun fuel r h => by
    match fuel with
    | 0 => exact Option.noConfusion h
    | fuel + 1 =>
      injection h with h2
      exact h2.symm
  | .u128, _ => fun fuel r h => by
    match fuel with
    | 0 => exact Option.noConfusion h
    | fuel + 1 =>
      injection h with h2
      exact h2.symm
  | .f32, _ => fun fuel r h => by
    match fuel with
    | 0 => exact Option.noConfusion h
    | fuel + 1 =>
      injection h with h2
      exact h2.symm
  | .f64, _ => fun fuel r h => by
    match fuel with
    | 0 => exact Option.noConfusion h
    | fuel + 1 =>
      injection h with h2
      exact h2.symm
  | .char, _ => fun fuel r h => by
    match fuel with
    | 0 => exact Option.noConfusion h
    | fuel + 1 =>
      injection h with h2
      exact h2.symm
  | .string, _ => fun fuel r h => by
    match fuel with
    | 0 => exact Option.noConfusion h
    | fuel + 1 =>
      injection h with h2
      exact h2.symm
  | .bytes, _ => fun fuel r h => by
    match fuel with
    | 0 => exact Option.noConfusion h
    | fuel + 1 =>
      injection h with h2
      exact h2.symm
  | .optionNone, _ => fun fuel r h => by
    match fuel with
    | 0 => exact Option.noConfusion h
    | fuel + 1 =>
      injection h with h2
      exact h2.symm
  | .unit nm, _ => fun fuel r h => by
    match fuel with
    | 0 => exact Option.noConfusion h
    | fuel + 1 =>
      replace h : (if eqDraft (.unit nm) (.unit nm) then
          some (some (SchemaBuilder.unit nm)) else some none) = some r := h
      rw [eqDraft_refl (.unit nm)] at h
      rw [if_pos rfl] at h
      injection h with h2
      exact h2.symm
  | .optionSome a, hc => fun fuel r h => by
    match fuel with
    | 0 => exact Option.noConfusion h
    | fuel + 1 =>
      replace h : (unionD fuel a a).map
          (fun i => some (SchemaBuilder.optionSome i)) = some r := h
      cases hu : unionD fuel a a with
      | none => rw [hu] at h; exact Option.noConfusion h
      | some u =>
        rw [hu] at h
        have hua : u = a := unionD_of_unify_self (unify_self a hc) fuel u hu
        subst hua
        injection h with h2
        exact h2.symm
  | .newtype nm a, hc => fun fuel r h => by
    match fuel with
    | 0 => exact Option.noConfusion h
    | fuel + 1 =>
      replace h : (if nm = nm then
          (unionD fuel a a).map (fun i => some (SchemaBuilder.newtype nm i))
          else some none) = some r := h
      rw [if_pos rfl] at h
      cases hu : unionD fuel a a with
      | none => rw [hu] at h; exact Option.noConfusion h
      | some u =>
        rw [hu] at h
        have hua : u = a := unionD_of_unify_self (unify_self a hc) fuel u hu
        subst hua
        injection h with h2
        exact h2.symm
  | .sequence a, hc => fun fuel r h => by
    match fuel with
    | 0 => exact Option.noConfusion h
    | fuel + 1 =>
      replace h : (unionD fuel a a).map
          (fun i => some (SchemaBuilder.sequence i)) = some r := h
      cases hu : unionD fuel a a with
      | none => rw [hu] at h; exact Option.noConfusion h
      | some u =>
        rw [hu] at h
        have hua : u = a := unionD_of_unify_self (unify_self a hc) fuel u hu
        subst hua
        injection h with h2
        exact h2.symm
  | .map k v, hc => fun fuel r h => by
    have hc2 : (canonical k && canonical v) = true := hc
    rw [Bool.and_eq_true] at hc2
    match fuel with
    | 0 => exact Option.noConfusion h
    | fuel + 1 =>
      replace h : (match unionD fuel k k, unionD fuel v v with
        | Option.some k2, Option.some v2 =>
          some (some (SchemaBuilder.map k2 v2))
        | _, _ => none) = some r := h
      cases hk : unionD fuel k k with
      | none => rw [hk] at h; exact Option.noConfusion h
      | some k2 =>
        rw [hk] at h
        cases hv : unionD fuel v v with
        | none => rw [hv] at h; exact Option.noConfusion h
        | some v2 =>
          rw [hv] at h
          have hk2 : k2 = k :=
            unionD_of_unify_self (unify_self k hc2.1) fuel k2 hk
          have hv2 : v2 = v :=
            unionD_of_unify_self (unify_self v hc2.2) fuel v2 hv
          subst hk2; subst hv2
          injection h with h2
          exact h2.symm
  | .union alts, hc => fun _ _ _ => Bool.noConfusion hc
  | .record nm fn fts sk len, hc => fun fuel r h => by
    have hc2 : (canonicalList fts && sortedLtB sk) = true := hc
    rw [Bool.and_eq_true] at hc2
    match fuel with
    | 0 => exact Option.noConfusion h
    | fuel + 1 =>
      replace h : (if (decide (nm = nm) && decide (fn = fn)
            && decide (len = len)) = true then
          (unifyFieldsF fuel (fts.zip fts)).map (fun ft =>
            some (SchemaBuilder.record nm fn ft (sortDedup (sk ++ sk)) len))
          else some none) = some r := h
      rw [show (decide (nm = nm) && decide (fn = fn)
        && decide (len = len)) = true from by simp] at h
      rw [if_pos rfl] at h
      cases hf : unifyFieldsF fuel (fts.zip fts) with
      | none => rw [hf] at h; exact Option.noConfusion h
      | some ft =>
        rw [hf] at h
        have hft : ft = fts := fields_self fts hc2.1 fuel ft hf
        subst hft
        rw [sortDedup_self_append sk (sortedLtB_pairwise sk hc2.2)] at h
        injection h with h2
        exact h2.symm

/-- Field-wise self-unification of a canonical field list. -/
theorem fields_self : ∀ (fs : List SchemaBuilder), canonicalList fs = true →
    ∀ fuel out, unifyFieldsF fuel (fs.zip fs) = some out → out = fs
  | [], _ => fun fuel out h => by
    match fuel with
    | 0 => exact Option.noConfusion h
    | fuel + 1 =>
      injection h with h2
      exact h2.symm
  | f :: rest, hc => fun fuel out h => by
    have hc2 : (canonical f && canonicalList rest) = true := hc
    rw [Bool.and_eq_true] at hc2
    match fuel with
    | 0 => exact Option.noConfusion h
    | fuel + 1 =>
      replace h : (match unionD fuel f f,
          unifyFieldsF fuel (rest.zip rest) with
        | Option.some f2, Option.some fs2 => some (f2 :: fs2)
        | _, _ => none) = some out := h
      cases hu : unionD fuel f f with
      | none => rw [hu] at h; exact Option.noConfusion h
      | some f2 =>
        rw [hu] at h
        cases hfs : unifyFieldsF fuel (rest.zip rest) with
        | none => rw [hfs] at h; exact Option.noConfusion h
        | some fs2 =>
          rw [hfs] at h
          have h1 : f2 = f :=
            unionD_of_unify_self (unify_self f hc2.1) fuel f2 hu
          have h2 : fs2 = rest := fields_self rest hc2.2 fuel fs2 hfs
          subst h1; subst h2
          injection h with h3
          exact h3.symm

end

/-- Commutativity of the catch-all (`eqDraft`) arm of `unify`. -/
theorem catchall_comm {a b : SchemaBuilder} {fuel fuel2 : Nat}
    {r r2 : Option SchemaBuilder}
    (e1 : unifyF (fuel + 1) a b
      = (if eqDraft a b then some (some a) else some none))
    (e2 : unifyF (fuel2 + 1) b a
      = (if eqDraft b a then some (some b) else some none))
    (h : unifyF (fuel + 1) a b = some r)
    (h2 : unifyF (fuel2 + 1) b a = some r2) :
    CommRes r r2 := by
  rw [e1] at h; rw [e2] at h2
  by_cases heq : eqDraft a b = true
  · have hab := eqDraft_eq a b heq
    subst hab
    rw [if_pos heq] at h
    rw [if_pos heq] at h2
    injection h with h3
    injection h2 with h4
    exact Or.inr ⟨a, a, h3.symm, h4.symm, EquivDraft.refl a⟩
  · have heq2 : ¬ eqDraft b a = true := fun hba =>
      heq (by rw [eqDraft_eq b a hba]; exact eqDraft_refl a)
    rw [if_neg heq] at h
    rw [if_neg heq2] at h2
    injection h with h3
    injection h2 with h4
    exact Or.inl ⟨h3.symm, h4.symm⟩

/-- `unionD` commutativity-up-to-reordering follows from the `CommRes`
relation of the two `unify` directions. -/
theorem unionD_comm_of {a b : SchemaBuilder}
    (H : ∀ fuel fuel2 r r2, unifyF fuel a b = some r →
      unifyF fuel2 b a = some r2 → CommRes r r2) :
    ∀ fuel fuel2 u u2, unionD fuel a b = some u →
      unionD fuel2 b a = some u2 → EquivDraft u u2 := by
  intro fuel fuel2 u u2 hu hu2
  match fuel, fuel2 with
  | 0, _ => exact Option.noConfusion hu
  | _ + 1, 0 => exact Option.noConfusion hu2
  | fuel + 1, fuel2 + 1 =>
    replace hu : (unifyF fuel a b).map (fun r =>
        match r with
        | Option.some l => l
        | Option.none => SchemaBuilder.union [a, b]) = some u := hu
    replace hu2 : (unifyF fuel2 b a).map (fun r =>
        match r with
        | Option.some l => l
        | Option.none => SchemaBuilder.union [b, a]) = some u2 := hu2
    cases hr : unifyF fuel a b with
    | none => rw [hr] at hu; exact Option.noConfusion hu
    | some r =>
      cases hr2 : unifyF fuel2 b a with
      | none => rw [hr2] at hu2; exact Option.noConfusion hu2
      | some r2 =>
        rw [hr] at hu
        rw [hr2] at hu2
        rcases H fuel fuel2 r r2 hr hr2 with ⟨hn, hn2⟩ |
          ⟨l, l2, hl, hl2, hequiv⟩
        · subst hn; subst hn2
          injection hu with h3
          injection hu2 with h4
          rw [← h3, ← h4]
          exact EquivDraft.union (List.Perm.swap b a [])
        · subst hl; subst hl2
          injection hu with h3
          injection hu2 with h4
          rw [← h3, ← h4]
          exact hequiv

mutual

/-- `unify` of union-free drafts is commutative up to reordering of the
union alternatives created by field merges. -/
theorem unify_comm : ∀ (a b : SchemaBuilder), unionFree a = true →
    unionFree b = true →
    ∀ fuel fuel2 r r2, unifyF fuel a b = some r →
      unifyF fuel2 b a = some r2 → CommRes r r2
  | .bool, b, _, hb => fun fuel fuel2 r r2 h h2 => by
    match fuel, fuel2 with
    | 0, _ => exact Option.noConfusion h
    | _ + 1, 0 => exact Option.noConfusion h2
    | fuel + 1, fuel2 + 1 =>
      cases b
      case union alts => exact Bool.noConfusion hb
      all_goals refine catchall_comm ?_ ?_ h h2 <;> rfl
  | .i8, b, _, hb => fun fuel fuel2 r r2 h h2 => by
    match fuel, fuel2 with
    | 0, _ => exact Option.noConfusion h
    | _ + 1, 0 => exact Option.noConfusion h2
    | fuel + 1, fuel2 + 1 =>
      cases b
      case union alts => exact Bool.noConfusion hb
      all_goals refine catchall_comm ?_ ?_ h h2 <;> rfl
  | .i16, b, _, hb => fun fuel fuel2 r r2 h h2 => by
    match fuel, fuel2 with
    | 0, _ => exact Option.noConfusion h
    | _ + 1, 0 => exact Option.noConfusion h2
    | fuel + 1, fuel2 + 1 =>
      cases b
      case union alts => exact Bool.noConfusion hb
      all_goals refine catchall_comm ?_ ?_ h h2 <;> rfl
  | .i32, b, _, hb => fun fuel fuel2 r r2 h h2 => by
    match fuel, fuel2 with
    | 0, _ => exact Option.noConfusion h
    | _ + 1, 0 => exact Option.noConfusion h2
    | fuel + 1, fuel2 + 1 =>
      cases b
      case union alts => exact Bool.noConfusion hb
      all_goals refine catchall_comm ?_ ?_ h h2 <;> rfl
  | .i64, b, _, hb => fun fuel fuel2 r r2 h h2 => by
    match fuel, fuel2 with
    | 0, _ => exact Option.noConfusion h
    | _ + 1, 0 => exact Option.noConfusion h2
    | fuel + 1, fuel2 + 1 =>
      cases b
      case union alts => exact Bool.noConfusion hb
      all_goals refine catchall_comm ?_ ?_ h h2 <;> rfl
  | .i128, b, _, hb => fun fuel fuel2 r r2 h h2 => by
    match fuel, fuel2 with
    | 0, _ => exact Option.noConfusion h
    | _ + 1, 0 => exact Option.noConfusion h2
    | fuel + 1, fuel2 + 1 =>
      cases b
      case union alts => exact Bool.noConfusion hb
      all_goals refine catchall_comm ?_ ?_ h h2 <;> rfl
  | .u8, b, _, hb => fun fuel fuel2 r r2 h h2 => by
    match fuel, fuel2 with
    | 0, _ => exact Option.noConfusion h
    | _ + 1, 0 => exact Option.noConfusion h2
    | fuel + 1, fuel2 + 1 =>
      cases b
      case union alts => exact Bool.noConfusion hb
      all_goals refine catchall_comm ?_ ?_ h h2 <;> rfl
  | .u16, b, _, hb => fun fuel fuel2 r r2 h h2 => by
    match fuel, fuel2 with
    | 0, _ => exact Option.noConfusion h
    | _ + 1, 0 => exact Option.noConfusion h2
    | fuel + 1, fuel2 + 1 =>
      cases b
      case union alts => exact Bool.noConfusion hb
      all_goals refine catchall_comm ?_ ?_ h h2 <;> rfl
  | .u32, b, _, hb => fun fuel fuel2 r r2 h h2 => by
    match fuel, fuel2 with
    | 0, _ => exact Option.noConfusion h
    | _ + 1, 0 => exact Option.noConfusion h2
    | fuel + 1, fuel2 + 1 =>
      cases b
      case union alts => exact Bool.noConfusion hb
      all_goals refine catchall_comm ?_ ?_ h h2 <;> rfl
  | .u64, b, _, hb => fun fuel fuel2 r r2 h h2 => by
    match fuel, fuel2 with
    | 0, _ => exact Option.noConfusion h
    | _ + 1, 0 => exact Option.noConfusion h2
    | fuel + 1, fuel2 + 1 =>
      cases b
      case union alts => exact Bool.noConfusion hb
      all_goals refine catchall_comm ?_ ?_ h h2 <;> rfl
  | .u128, b, _, hb => fun fuel fuel2 r r2 h h2 => by
    match fuel, fuel2 with
    | 0, _ => exact Option.noConfusion h
    | _ + 1, 0 => exact Option.noConfusion h2
    | fuel + 1, fuel2 + 1 =>
      cases b
      case union alts => exact Bool.noConfusion hb
      all_goals refine catchall_comm ?_ ?_ h h2 <;> rfl
  | .f32, b, _, hb => fun fuel fuel2 r r2 h h2 => by
    match fuel, fuel2 with
    | 0, _ => exact Option.noConfusion h
    | _ + 1, 0 => exact Option.noConfusion h2
    | fuel + 1, fuel2 + 1 =>
      cases b
      case union alts => exact Bool.noConfusion hb
      all_goals refine catchall_comm ?_ ?_ h h2 <;> rfl
  | .f64, b, _, hb => fun fuel fuel2 r r2 h h2 => by
    match fuel, fuel2 with
    | 0, _ => exact Option.noConfusion h
    | _ + 1, 0 => exact Option.noConfusion h2
    | fuel + 1, fuel2 + 1 =>
      cases b
      case union alts => exact Bool.noConfusion hb
      all_goals refine catchall_comm ?_ ?_ h h2 <;> rfl
  | .char, b, _, hb => fun fuel fuel2 r r2 h h2 => by
    match fuel, fuel2 with
    | 0, _ => exact Option.noConfusion h
    | _ + 1, 0 => exact Option.noConfusion h2
    | fuel + 1, fuel2 + 1 =>
      cases b
      case union alts => exact Bool.noConfusion hb
      all_goals refine catchall_comm ?_ ?_ h h2 <;> rfl
  | .string, b, _, hb => fun fuel fuel2 r r2 h h2 => by
    match fuel, fuel2 with
    | 0, _ => exact Option.noConfusion h
    | _ + 1, 0 => exact Option.noConfusion h2
    | fuel + 1, fuel2 + 1 =>
      cases b
      case union alts => exact Bool.noConfusion hb
      all_goals refine catchall_comm ?_ ?_ h h2 <;> rfl
  | .bytes, b, _, hb => fun fuel fuel2 r r2 h h2 => by
    match fuel, fuel2 with
    | 0, _ => exact Option.noConfusion h
    | _ + 1, 0 => exact Option.noConfusion h2
    | fuel + 1, fuel2 + 1 =>
      cases b
      case union alts => exact Bool.noConfusion hb
      all_goals refine catchall_comm ?_ ?_ h h2 <;> rfl
  | .optionNone, b, _, hb => fun fuel fuel2 r r2 h h2 => by
    match fuel, fuel2 with
    | 0, _ => exact Option.noConfusion h
    | _ + 1, 0 => exact Option.noConfusion h2
    | fuel + 1, fuel2 + 1 =>
      cases b
      case union alts => exact Bool.noConfusion hb
      all_goals refine catchall_comm ?_ ?_ h h2 <;> rfl
  | .unit nm, b, _, hb => fun fuel fuel2 r r2 h h2 => by
    match fuel, fuel2 with
    | 0, _ => exact Option.noConfusion h
    | _ + 1, 0 => exact Option.noConfusion h2
    | fuel + 1, fuel2 + 1 =>
      cases b
      case union alts => exact Bool.noConfusion hb
      all_goals refine catchall_comm ?_ ?_ h h2 <;> rfl
  | .optionSome a, b, ha, hb => fun fuel fuel2 r r2 h h2 => by
    match fuel, fuel2 with
    | 0, _ => exact Option.noConfusion h
    | _ + 1, 0 => exact Option.noConfusion h2
    | fuel + 1, fuel2 + 1 =>
      cases b
      case union alts => exact Bool.noConfusion hb
      case optionSome b2 =>
        replace h : (unionD fuel a b2).map
            (fun i => some (SchemaBuilder.optionSome i)) = some r := h
        replace h2 : (unionD fuel2 b2 a).map
            (fun i => some (SchemaBuilder.optionSome i)) = some r2 := h2
        cases hu : unionD fuel a b2 with
        | none => rw [hu] at h; exact Option.noConfusion h
        | some u =>
          cases hu2 : unionD fuel2 b2 a with
          | none => rw [hu2] at h2; exact Option.noConfusion h2
          | some u2 =>
            rw [hu] at h
            rw [hu2] at h2
            injection h with h3
            injection h2 with h4
            exact Or.inr ⟨_, _, h3.symm, h4.symm, EquivDraft.optionSome
              (unionD_comm_of (unify_comm a b2 ha hb) fuel fuel2 u u2 hu hu2)⟩
      all_goals refine catchall_comm ?_ ?_ h h2 <;> rfl
  | .newtype nm a, b, ha, hb => fun fuel fuel2 r r2 h h2 => by
    match fuel, fuel2 with
    | 0, _ => exact Option.noConfusion h
    | _ + 1, 0 => exact Option.noConfusion h2
    | fuel + 1, fuel2 + 1 =>
      cases b
      case union alts => exact Bool.noConfusion hb
      case newtype nm2 b2 =>
        replace h : (if nm = nm2 then
            (unionD fuel a b2).map
              (fun i => some (SchemaBuilder.newtype nm i))
            else some none) = some r := h
        replace h2 : (if nm2 = nm then
            (unionD fuel2 b2 a).map
              (fun i => some (SchemaBuilder.newtype nm2 i))
            else some none) = some r2 := h2
        by_cases hg : nm = nm2
        · subst hg
          rw [if_pos rfl] at h
          rw [if_pos rfl] at h2
          cases hu : unionD fuel a b2 with
          | none => rw [hu] at h; exact Option.noConfusion h
          | some u =>
            cases hu2 : unionD fuel2 b2 a with
            | none => rw [hu2] at h2; exact Option.noConfusion h2
            | some u2 =>
              rw [hu] at h
              rw [hu2] at h2
              injection h with h3
              injection h2 with h4
              exact Or.inr ⟨_, _, h3.symm, h4.symm, EquivDraft.newtype nm
                (unionD_comm_of (unify_comm a b2 ha hb) fuel fuel2 u u2
                  hu hu2)⟩
        · rw [if_neg hg] at h
          rw [if_neg (fun hx => hg hx.symm)] at h2
          injection h with h3
          injection h2 with h4
          exact Or.inl ⟨h3.symm, h4.symm⟩
      all_goals refine catchall_comm ?_ ?_ h h2 <;> rfl
  | .map k v, b, ha, hb => fun fuel fuel2 r r2 h h2 => by
    have ha2 : (unionFree k && unionFree v) = true := ha
    rw [Bool.and_eq_true] at ha2
    match fuel, fuel2 with
    | 0, _ => exact Option.noConfusion h
    | _ + 1, 0 => exact Option.noConfusion h2
    | fuel + 1, fuel2 + 1 =>
      cases b
      case union alts => exact Bool.noConfusion hb
      case map k2 v2 =>
        have hb2 : (unionFree k2 && unionFree v2) = true := hb
        rw [Bool.and_eq_true] at hb2
        replace h : (match unionD fuel k k2, unionD fuel v v2 with
          | Option.some ku, Option.some vu =>
            some (some (SchemaBuilder.map ku vu))
          | _, _ => none) = some r := h
        replace h2 : (match unionD fuel2 k2 k, unionD fuel2 v2 v with
          | Option.some ku, Option.some vu =>
            some (some (SchemaBuilder.map ku vu))
          | _, _ => none) = some r2 := h2
        cases hk : unionD fuel k k2 with
        | none => rw [hk] at h; exact Option.noConfusion h
        | some ku =>
          rw [hk] at h
          cases hv : unionD fuel v v2 with
          | none => rw [hv] at h; exact Option.noConfusion h
          | some vu =>
            rw [hv] at h
            cases hk2 : unionD fuel2 k2 k with
            | none => rw [hk2] at h2; exact Option.noConfusion h2
            | some ku2 =>
              rw [hk2] at h2
              cases hv2 : unionD fuel2 v2 v with
              | none => rw [hv2] at h2; exact Option.noConfusion h2
              | some vu2 =>
                rw [hv2] at h2
                injection h with h3
                injection h2 with h4
                exact Or.inr ⟨_, _, h3.symm, h4.symm, EquivDraft.map
                  (unionD_comm_of (unify_comm k k2 ha2.1 hb2.1) fuel fuel2
                    ku ku2 hk hk2)
                  (unionD_comm_of (unify_comm v v2 ha2.2 hb2.2) fuel fuel2
                    vu vu2 hv hv2)⟩
      all_goals refine catchall_comm ?_ ?_ h h2 <;> rfl
  | .sequence a, b, ha, hb => fun fuel fuel2 r r2 h h2 => by
    match fuel, fuel2 with
    | 0, _ => exact Option.noConfusion h
    | _ + 1, 0 => exact Option.noConfusion h2
    | fuel + 1, fuel2 + 1 =>
      cases b
      case union alts => exact Bool.noConfusion hb
      case sequence b2 =>
        replace h : (unionD fuel a b2).map
            (fun i => some (SchemaBuilder.sequence i)) = some r := h
        replace h2 : (unionD fuel2 b2 a).map
            (fun i => some (SchemaBuilder.sequence i)) = some r2 := h2
        cases hu : unionD fuel a b2 with
        | none => rw [hu] at h; exact Option.noConfusion h
        | some u =>
          cases hu2 : unionD fuel2 b2 a with
          | none => rw [hu2] at h2; exact Option.noConfusion h2
          | some u2 =>
            rw [hu] at h
            rw [hu2] at h2
            injection h with h3
            injection h2 with h4
            exact Or.inr ⟨_, _, h3.symm, h4.symm, EquivDraft.sequence
              (unionD_comm_of (unify_comm a b2 ha hb) fuel fuel2 u u2 hu hu2)⟩
      all_goals refine catchall_comm ?_ ?_ h h2 <;> rfl
  | .union alts, _, ha, _ => fun _ _ _ _ _ _ => Bool.noConfusion ha
  | .record nm fn fts sk len, b, ha, hb => fun fuel fuel2 r r2 h h2 => by
    match fuel, fuel2 with
    | 0, _ => exact Option.noConfusion h
    | _ + 1, 0 => exact Option.noConfusion h2
    | fuel + 1, fuel2 + 1 =>
      cases b
      case union alts => exact Bool.noConfusion hb
      case record nm2 fn2 fts2 sk2 len2 =>
        replace h : (if (decide (nm = nm2) && decide (fn = fn2)
              && decide (len = len2)) = true then
            (unifyFieldsF fuel (fts.zip fts2)).map (fun ft =>
              some (SchemaBuilder.record nm fn ft (sortDedup (sk ++ sk2))
                len))
            else some none) = some r := h
        replace h2 : (if (decide (nm2 = nm) && decide (fn2 = fn)
              && decide (len2 = len)) = true then
            (unifyFieldsF fuel2 (fts2.zip fts)).map (fun ft =>
              some (SchemaBuilder.record nm2 fn2 ft (sortDedup (sk2 ++ sk))
                len2))
            else some none) = some r2 := h2
        by_cases hg : nm = nm2 ∧ fn = fn2 ∧ len = len2
        · obtain ⟨hg1, hg2, hg3⟩ := hg
          subst hg1; subst hg2; subst hg3
          rw [if_pos (by simp)] at h
          rw [if_pos (by simp)] at h2
          cases hf : unifyFieldsF fuel (fts.zip fts2) with
          | none => rw [hf] at h; exact Option.noConfusion h
          | some ft =>
            rw [hf] at h
            cases hf2 : unifyFieldsF fuel2 (fts2.zip fts) with
            | none => rw [hf2] at h2; exact Option.noConfusion h2
            | some ft2 =>
              rw [hf2] at h2
              injection h with h3
              injection h2 with h4
              refine Or.inr ⟨_, _, h3.symm, h4.symm, ?_⟩
              rw [sortDedup_append_comm sk2 sk]
              exact EquivDraft.record nm fn (sortDedup (sk ++ sk2)) len
                (fields_comm fts fts2 ha hb fuel fuel2 ft ft2 hf hf2)
        · have hgn : ¬ ((decide (nm = nm2) && decide (fn = fn2)
              && decide (len = len2)) = true) := by
            simp only [Bool.and_eq_true, decide_eq_true_eq]
            tauto
          have hgn2 : ¬ ((decide (nm2 = nm) && decide (fn2 = fn)
              && decide (len2 = len)) = true) := by
            simp only [Bool.and_eq_true, decide_eq_true_eq]
            intro hx
            exact hg ⟨hx.1.1.symm, hx.1.2.symm, hx.2.symm⟩
          rw [if_neg hgn] at h
          rw [if_neg hgn2] at h2
          injection h with h3
          injection h2 with h4
          exact Or.inl ⟨h3.symm, h4.symm⟩
      all_goals refine catchall_comm ?_ ?_ h h2 <;> rfl

/-- Field-wise union of zipped union-free field lists, in the two
orders, gives pointwise equivalent results. -/
theorem fields_comm : ∀ (fs gs : List SchemaBuilder),
    unionFreeList fs = true → unionFreeList gs = true →
    ∀ fuel fuel2 out out2, unifyFieldsF fuel (fs.zip gs) = some out →
      unifyFieldsF fuel2 (gs.zip fs) = some out2 → EquivDraftList out out2
  | [], gs, _, _ => fun fuel fuel2 out out2 h h2 => by
    match fuel, fuel2 with
    | 0, _ => exact Option.noConfusion h
    | _ + 1, 0 => exact Option.noConfusion h2
    | fuel + 1, fuel2 + 1 =>
      cases gs with
      | nil =>
        injection h with h3
        injection h2 with h4
        rw [← h3, ← h4]
        exact EquivDraftList.nil
      | cons g gs2 =>
        injection h with h3
        injection h2 with h4
        rw [← h3, ← h4]
        exact EquivDraftList.nil
  | f :: fs2, gs, ha, hb => fun fuel fuel2 out out2 h h2 => by
    have ha2 : (unionFree f && unionFreeList fs2) = true := ha
    rw [Bool.and_eq_true] at ha2
    match fuel, fuel2 with
    | 0, _ => exact Option.noConfusion h
    | _ + 1, 0 => exact Option.noConfusion h2
    | fuel + 1, fuel2 + 1 =>
      cases gs with
      | nil =>
        injection h with h3
        injection h2 with h4
        rw [← h3, ← h4]
        exact EquivDraftList.nil
      | cons g gs2 =>
        have hb2 : (unionFree g && unionFreeList gs2) = true := hb
        rw [Bool.and_eq_true] at hb2
        replace h : (match unionD fuel f g,
            unifyFieldsF fuel (fs2.zip gs2) with
          | Option.some f2, Option.some rest2 => some (f2 :: rest2)
          | _, _ => none) = some out := h
        replace h2 : (match unionD fuel2 g f,
            unifyFieldsF fuel2 (gs2.zip fs2) with
          | Option.some f2, Option.some rest2 => some (f2 :: rest2)
          | _, _ => none) = some out2 := h2
        cases hu : unionD fuel f g with
        | none => rw [hu] at h; exact Option.noConfusion h
        | some u =>
          rw [hu] at h
          cases hrest : unifyFieldsF fuel (fs2.zip gs2) with
          | none => rw [hrest] at h; exact Option.noConfusion h
          | some rest =>
            rw [hrest] at h
            cases hu2 : unionD fuel2 g f with
            | none => rw [hu2] at h2; exact Option.noConfusion h2
            | some u2 =>
              rw [hu2] at h2
              cases hrest2 : unifyFieldsF fuel2 (gs2.zip fs2) with
              | none => rw [hrest2] at h2; exact Option.noConfusion h2
              | some rest2 =>
                rw [hrest2] at h2
                injection h with h3
                injection h2 with h4
                rw [← h3, ← h4]
                exact EquivDraftList.cons
                  (unionD_comm_of (unify_comm f g ha2.1 hb2.1) fuel fuel2
                    u u2 hu hu2)
                  (fields_comm fs2 gs2 ha2.2 hb2.2 fuel fuel2 rest rest2
                    hrest hrest2)

end

/-- C7 as amended: the draft union operation is idempotent on canonical
drafts (union-free, strictly sorted skip lists), and on union-free
drafts it is commutative up to reordering of the union alternatives its
merges create. -/
theorem c7_draft_union_amended :
    (∀ (a : SchemaBuilder), canonical a = true →
      ∀ fuel r, unionD fuel a a = some r → r = a)
    ∧ (∀ (a b : SchemaBuilder), unionFree a = true → unionFree b = true →
      ∀ fuel fuel2 u u2, unionD fuel a b = some u →
        unionD fuel2 b a = some u2 → EquivDraft u u2) :=
  ⟨fun a hc => unionD_of_unify_self (unify_self a hc),
   fun a b ha hb => unionD_comm_of (unify_comm a b ha hb)⟩

/-- Witness for the amended C7: a concrete canonical one-field record
self-unions to itself, and the two union orders of the `bool`/`u32`
records give the same record up to the order of the merged field's
union alternatives. -/
theorem c7_draft_union_amended_witness :
    ((.record Option.none (Option.some 0) [.u32] [0] 1 : SchemaBuilder)
      = .record Option.none (Option.some 0) [.u32] [0] 1)
    ∧ EquivDraft
        (.record Option.none Option.none [.union [.bool, .u32]] [] 1)
        (.record Option.none Option.none [.union [.u32, .bool]] [] 1) :=
  ⟨c7_draft_union_amended.1
      (.record Option.none (Option.some 0) [.u32] [0] 1) rfl 5
      (.record Option.none (Option.some 0) [.u32] [0] 1) rfl,
   c7_draft_union_amended.2
      (.record Option.none Option.none [.bool] [] 1)
      (.record Option.none Option.none [.u32] [] 1) rfl rfl 5 5
      (.record Option.none Option.none [.union [.bool, .u32]] [] 1)
      (.record Option.none Option.none [.union [.u32, .bool]] [] 1)
      rfl rfl⟩

end Bincol
